import Mathlib

/-!
# Task behaviour of the flow engine (`model/simple/taskbehavior.go`)

A shallow embedding of `TaskBehavior` (`Enter`, `Eval`, `PostEval`, `Done`,
`Skip`, `Error`) together with theorems about it.

Modelling conventions.

* A `model.TaskContext` is a record of the state the behaviour reads and writes:
  the task status, the ordered incoming / outgoing link instances, and the
  per-instance link status.  Link instances are Go objects handled by reference;
  here a reference is a natural number, `linkOf` gives the immutable
  `Link()` of an instance and `linkStatus` its mutable `Status()`.
* Every capability call that the source makes on the context or on the
  repeat collaborator is recorded, in order, in `calls`; this ghost field is
  what statements of the form "without calling ..." are about.
* The capabilities whose code is not part of `taskbehavior.go`
  (`EvalActivity`, `PostEvalActivity`, `EvalLink`, `GetRepeatData`, `DoRepeat`,
  `EvaluateExpression`) are parameters, collected in `Env`.  They return a
  result and write neither the task status nor a link status.
* Logging (`FlowLogger`) has no effect on the state and is left out.
-/

namespace Simple

/-! ## Data model -/

/-- Modelled from the spec: the constants of `model.TaskStatus` are declared outside
`taskbehavior.go`; the spec lists these six values. -/
inductive TaskStatus where
  | TaskStatusNotStarted
  | TaskStatusEntered
  | TaskStatusReady
  | TaskStatusSkipped
  | TaskStatusDone
  | TaskStatusFailed
  deriving DecidableEq, Repr

/-- Modelled from the spec: the constants of `model.LinkStatus` are declared outside
`taskbehavior.go`; the spec lists `Pending` (the only unresolved value) and the
resolved values `False`, `True`, `Skipped`. -/
inductive LinkStatus where
  | LinkStatusPending
  | LinkStatusFalse
  | LinkStatusTrue
  | LinkStatusSkipped
  deriving DecidableEq, Repr

/-- Modelled from the spec: the integer behind a `model.LinkStatus`.  The source compares
statuses as integers (`Status() < LinkStatusFalse`); the spec orders `Pending`
strictly below the three resolved values. -/
def LinkStatus.toInt : LinkStatus → Int
  | .LinkStatusPending => 0
  | .LinkStatusFalse => 1
  | .LinkStatusTrue => 2
  | .LinkStatusSkipped => 3

/-- Modelled from the spec: the link types of package `definition`; the source names
`LtError`, `LtOtherwise` and `LtExpression`, every other link is a normal one. -/
inductive LinkType where
  | LtNormal
  | LtExpression
  | LtOtherwise
  | LtError
  deriving DecidableEq, Repr

/-- A `definition.Task`, reduced to its identity. -/
structure Task where
  ID : Nat
  deriving DecidableEq, Repr

/-- A `definition.Link`: identity, type and the two tasks it joins. -/
structure Link where
  ID : Nat
  Type_ : LinkType
  FromTask : Task
  ToTask : Task
  deriving DecidableEq, Repr

/-- A `model.TaskEntry`, the work item naming a task to enter. -/
structure TaskEntry where
  Task : Task
  deriving DecidableEq, Repr

/-- Result of `Enter`. -/
inductive EnterResult where
  | EnterNotReady
  | EnterEval
  | EnterSkip
  deriving DecidableEq, Repr

/-- Result of `Eval` and `PostEval`. -/
inductive EvalResult where
  | EvalWait
  | EvalDone
  | EvalSkip
  | EvalFail
  deriving DecidableEq, Repr

/-- A Go `error` value.  `activityError` is a value of dynamic type
`*activity.Error`, whose `Retriable()` is the flag; `otherError` is an error of any
other dynamic type. -/
inductive GoError where
  | activityError (msg : String) (retriable : Bool)
  | otherError (msg : String)
  deriving DecidableEq, Repr

deriving instance DecidableEq for Except

/-- The test `errVal, ok := err.(*activity.Error); ok && errVal.Retriable()`. -/
def GoError.isRetriable : GoError → Bool
  | .activityError _ r => r
  | .otherError _ => false

/-- The two keys of the repeat policies. -/
inductive RepeatKey where
  | ErrorRepeatData
  | OnCondRepeatData
  deriving DecidableEq, Repr

/-- The repeat policy: `Count` is a Go `int`, `Condition` a string. -/
structure RepeatData where
  Count : Int
  Condition : String
  deriving DecidableEq, Repr

/-- One capability call made by the behaviour. -/
inductive Call where
  | SetStatus (s : TaskStatus)
  | SetLinkStatus (inst : Nat) (s : LinkStatus)
  | EvalActivity
  | PostEvalActivity
  | EvalLink (l : Link)
  | GetRepeatData (key : RepeatKey)
  | DoRepeat (data : RepeatData) (key : RepeatKey)
  | EvaluateExpression (data : RepeatData)
  deriving DecidableEq, Repr

/-- The state behind a `model.TaskContext`. -/
structure TaskContext where
  task : Task
  status : TaskStatus
  fromLinks : List Nat
  toLinks : List Nat
  linkOf : Nat → Link
  linkStatus : Nat → LinkStatus
  calls : List Call

/-- The capabilities implemented outside `taskbehavior.go`. -/
structure Env where
  EvalActivity : Bool × Option GoError
  PostEvalActivity : Option GoError
  EvalLink : Link → Except GoError Bool
  GetRepeatData : RepeatKey → Except GoError RepeatData
  DoRepeat : RepeatData → RepeatKey → EvalResult × Option GoError
  EvaluateExpression : RepeatData → EvalResult × Option GoError

open TaskStatus LinkStatus LinkType EnterResult EvalResult

/-! ## Capabilities of the context -/

/-- The call `ctx.SetStatus(s)`. -/
def TaskContext.SetStatus (ctx : TaskContext) (s : TaskStatus) : TaskContext :=
  { ctx with status := s, calls := ctx.calls ++ [Call.SetStatus s] }

/-- The call `linkInst.SetStatus(s)` on the link instance `inst`. -/
def TaskContext.SetLinkStatus (ctx : TaskContext) (inst : Nat) (s : LinkStatus) : TaskContext :=
  { ctx with
    linkStatus := fun j => if j = inst then s else ctx.linkStatus j,
    calls := ctx.calls ++ [Call.SetLinkStatus inst s] }

/-- The entry `&model.TaskEntry{Task: linkInst.Link().ToTask()}` built for the link
instance `inst`. -/
def TaskContext.entryFor (ctx : TaskContext) (inst : Nat) : TaskEntry :=
  TaskEntry.mk (ctx.linkOf inst).ToTask

/-- Appends one call to the record of calls. -/
def TaskContext.record (ctx : TaskContext) (c : Call) : TaskContext :=
  { ctx with calls := ctx.calls ++ [c] }

/-! ## Enter -/

/-- The loop of `Enter` over the incoming link instances, on the variables
`(ready, skipped)`: a status below `LinkStatusFalse` clears `ready` and breaks,
a status `LinkStatusTrue` clears `skipped`. -/
def enterLoop (ctx : TaskContext) : List Nat → Bool → Bool → Bool × Bool
  | [], ready, skipped => (ready, skipped)
  | inst :: rest, ready, skipped =>
    if (ctx.linkStatus inst).toInt < LinkStatusFalse.toInt then
      (false, skipped)
    else if ctx.linkStatus inst = LinkStatusTrue then
      enterLoop ctx rest ready false
    else
      enterLoop ctx rest ready skipped

/-- The values of `(ready, skipped)` when `Enter` reaches `if ready`. -/
def enterFlags (ctx : TaskContext) : Bool × Bool :=
  if ctx.fromLinks.length = 0 then
    (true, false)
  else
    enterLoop ctx ctx.fromLinks true true

/-- `TaskBehavior.Enter`: the result and the context after the call. -/
def Enter (ctx : TaskContext) : EnterResult × TaskContext :=
  let ctx1 := ctx.SetStatus TaskStatusEntered
  let flags := enterFlags ctx1
  if flags.1 then
    if flags.2 then
      (EnterSkip, ctx1.SetStatus TaskStatusSkipped)
    else
      (EnterEval, ctx1.SetStatus TaskStatusReady)
  else
    (EnterNotReady, ctx1)

/-! ## Eval and PostEval -/

/-- `TaskBehavior.Eval`: the pair `(evalResult, err)` and the context after the call. -/
def Eval (env : Env) (ctx : TaskContext) : (EvalResult × Option GoError) × TaskContext :=
  if ctx.status = TaskStatusSkipped then
    ((EvalSkip, none), ctx)
  else
    let ctx1 := ctx.record Call.EvalActivity
    match env.EvalActivity with
    | (_, some err) =>
      if err.isRetriable then
        let ctx2 := ctx1.record (Call.GetRepeatData RepeatKey.ErrorRepeatData)
        match env.GetRepeatData RepeatKey.ErrorRepeatData with
        | Except.error rerr => ((EvalFail, some rerr), ctx2)
        | Except.ok repeatData =>
          if repeatData.Count > 0 then
            (env.DoRepeat repeatData RepeatKey.ErrorRepeatData,
              ctx2.record (Call.DoRepeat repeatData RepeatKey.ErrorRepeatData))
          else
            ((EvalFail, some err), ctx2.SetStatus TaskStatusFailed)
      else
        ((EvalFail, some err), ctx1.SetStatus TaskStatusFailed)
    | (done, none) =>
      if done then
        let ctx2 := ctx1.record (Call.GetRepeatData RepeatKey.OnCondRepeatData)
        match env.GetRepeatData RepeatKey.OnCondRepeatData with
        | Except.error rerr => ((EvalFail, some rerr), ctx2)
        | Except.ok repeatData =>
          if repeatData.Condition.length > 0 then
            (env.EvaluateExpression repeatData, ctx2.record (Call.EvaluateExpression repeatData))
          else
            ((EvalDone, none), ctx2)
      else
        ((EvalWait, none), ctx1)

/-- `TaskBehavior.PostEval`: the pair `(evalResult, err)` and the context after the call. -/
def PostEval (env : Env) (ctx : TaskContext) : (EvalResult × Option GoError) × TaskContext :=
  let ctx1 := ctx.record Call.PostEvalActivity
  match env.PostEvalActivity with
  | some err =>
    if err.isRetriable then
      let ctx2 := ctx1.record (Call.GetRepeatData RepeatKey.ErrorRepeatData)
      match env.GetRepeatData RepeatKey.ErrorRepeatData with
      | Except.error rerr => ((EvalFail, some rerr), ctx2)
      | Except.ok repeatData =>
        if repeatData.Count > 0 then
          (env.DoRepeat repeatData RepeatKey.ErrorRepeatData,
            ctx2.record (Call.DoRepeat repeatData RepeatKey.ErrorRepeatData))
        else
          ((EvalFail, some err), ctx2.SetStatus TaskStatusFailed)
    else
      ((EvalFail, some err), ctx1.SetStatus TaskStatusFailed)
  | none =>
    let ctx2 := ctx1.record (Call.GetRepeatData RepeatKey.OnCondRepeatData)
    match env.GetRepeatData RepeatKey.OnCondRepeatData with
    | Except.error rerr => ((EvalFail, some rerr), ctx2)
    | Except.ok repeatData =>
      if repeatData.Condition.length > 0 then
        (env.EvaluateExpression repeatData, ctx2.record (Call.EvaluateExpression repeatData))
      else
        ((EvalDone, none), ctx2)

/-! ## Done -/

/-- The values returned by `Done`; `taskEntries = none` is the nil slice. -/
structure DoneReturn where
  notifyFlow : Bool
  taskEntries : Option (List TaskEntry)
  err : Option GoError
  deriving DecidableEq, Repr

/-- The variables of the loop of `Done`, with the context. -/
structure DoneLoopState where
  ctx : TaskContext
  taskEntries : List TaskEntry
  linkFollowed : Bool
  otherwiseLinkInst : Option Nat

/-- The tail of the loop body of `Done` (`if follow ... else ...`): the link instance
is set `LinkStatusTrue` or `LinkStatusFalse` and an entry for its target is appended in
both cases. -/
def doneResolve (st : DoneLoopState) (inst : Nat) (follow : Bool) : DoneLoopState :=
  if follow then
    { st with
      linkFollowed := true,
      ctx := st.ctx.SetLinkStatus inst LinkStatusTrue,
      taskEntries := st.taskEntries ++ [st.ctx.entryFor inst] }
  else
    { st with
      ctx := st.ctx.SetLinkStatus inst LinkStatusFalse,
      taskEntries := st.taskEntries ++ [st.ctx.entryFor inst] }

/-- The loop of `Done` over the outgoing link instances.  The first component is the
error of `EvalLink` on which the loop returned, if any; the state is the one reached
at that point. -/
def doneLoop (env : Env) : List Nat → DoneLoopState → Option GoError × DoneLoopState
  | [], st => (none, st)
  | inst :: rest, st =>
    if (st.ctx.linkOf inst).Type_ = LtError then
      doneLoop env rest st
    else if (st.ctx.linkOf inst).Type_ = LtOtherwise then
      doneLoop env rest { st with otherwiseLinkInst := some inst }
    else if (st.ctx.linkOf inst).Type_ = LtExpression then
      match env.EvalLink (st.ctx.linkOf inst) with
      | Except.error err =>
        (some err, { st with ctx := st.ctx.record (Call.EvalLink (st.ctx.linkOf inst)) })
      | Except.ok follow =>
        doneLoop env rest
          (doneResolve { st with ctx := st.ctx.record (Call.EvalLink (st.ctx.linkOf inst)) }
            inst follow)
    else
      doneLoop env rest (doneResolve st inst true)

/-- `TaskBehavior.Done`: the returned values and the context after the call. -/
def Done (env : Env) (ctx : TaskContext) : DoneReturn × TaskContext :=
  let linkInsts := ctx.toLinks
  let numLinks := linkInsts.length
  let ctx1 := ctx.SetStatus TaskStatusDone
  if numLinks > 0 then
    match doneLoop env linkInsts
        { ctx := ctx1, taskEntries := [], linkFollowed := false, otherwiseLinkInst := none } with
    | (some err, st) => ({ notifyFlow := false, taskEntries := none, err := some err }, st.ctx)
    | (none, st) =>
      match st.linkFollowed, st.otherwiseLinkInst with
      | false, some otherwiseLinkInst =>
        ({ notifyFlow := false,
           taskEntries :=
             some (st.taskEntries ++ [st.ctx.entryFor otherwiseLinkInst]),
           err := none },
          st.ctx.SetLinkStatus otherwiseLinkInst LinkStatusTrue)
      | _, _ => ({ notifyFlow := false, taskEntries := some st.taskEntries, err := none }, st.ctx)
  else
    ({ notifyFlow := true, taskEntries := none, err := none }, ctx1)

/-! ## Skip -/

/-- The loop of `Skip`: every outgoing link instance is set `LinkStatusSkipped` and an
entry for its target is appended. -/
def skipLoop : List Nat → TaskContext → List TaskEntry → TaskContext × List TaskEntry
  | [], ctx, taskEntries => (ctx, taskEntries)
  | inst :: rest, ctx, taskEntries =>
    skipLoop rest (ctx.SetLinkStatus inst LinkStatusSkipped)
      (taskEntries ++ [ctx.entryFor inst])

/-- `TaskBehavior.Skip`: the pair `(notifyFlow, taskEntries)` and the context after the
call. -/
def Skip (ctx : TaskContext) : (Bool × Option (List TaskEntry)) × TaskContext :=
  let linkInsts := ctx.toLinks
  let numLinks := linkInsts.length
  let ctx1 := ctx.SetStatus TaskStatusSkipped
  if numLinks > 0 then
    let r := skipLoop linkInsts ctx1 []
    ((false, some r.2), r.1)
  else
    ((true, none), ctx1)

/-! ## Error -/

/-- The first loop of `Error`: `handled` becomes true at the first outgoing link
instance of type `LtError`. -/
def errorHandled (ctx : TaskContext) : List Nat → Bool
  | [] => false
  | inst :: rest =>
    if (ctx.linkOf inst).Type_ = LtError then true else errorHandled ctx rest

/-- The second loop of `Error`: link instances of type `LtError` are set
`LinkStatusTrue`, the others `LinkStatusFalse`, and an entry is appended for each. -/
def errorLoop : List Nat → TaskContext → List TaskEntry → TaskContext × List TaskEntry
  | [], ctx, taskEntries => (ctx, taskEntries)
  | inst :: rest, ctx, taskEntries =>
    if (ctx.linkOf inst).Type_ = LtError then
      errorLoop rest (ctx.SetLinkStatus inst LinkStatusTrue)
        (taskEntries ++ [ctx.entryFor inst])
    else
      errorLoop rest (ctx.SetLinkStatus inst LinkStatusFalse)
        (taskEntries ++ [ctx.entryFor inst])

/-- `TaskBehavior.Error`: the pair `(handled, taskEntries)` and the context after the
call.  The error passed in is not used by the source. -/
def Error (ctx : TaskContext) (_err : GoError) : (Bool × Option (List TaskEntry)) × TaskContext :=
  let linkInsts := ctx.toLinks
  let numLinks := linkInsts.length
  if numLinks > 0 then
    if errorHandled ctx linkInsts then
      let r := errorLoop linkInsts ctx []
      ((true, some r.2), r.1)
    else
      ((false, none), ctx)
  else
    ((false, none), ctx)

/-! ## Example contexts -/

/-- The link of the example contexts: instance `n` has link `n`, from task 0 to
task `n`; instances 10 to 19 are expression links, 20 to 29 otherwise links, 30 to 39
error links, every other one is a normal link. -/
def exLinkOf (n : Nat) : Link :=
  { ID := n,
    Type_ :=
      if n / 10 = 1 then LtExpression
      else if n / 10 = 2 then LtOtherwise
      else if n / 10 = 3 then LtError
      else LtNormal,
    FromTask := Task.mk 0,
    ToTask := Task.mk n }

/-- The link statuses of the example contexts: by last digit, 0 is pending, 1 false,
2 true and 3 skipped; every other one is pending. -/
def exLinkStatus (n : Nat) : LinkStatus :=
  if n % 10 = 1 then LinkStatusFalse
  else if n % 10 = 2 then LinkStatusTrue
  else if n % 10 = 3 then LinkStatusSkipped
  else LinkStatusPending

/-- An example context with the given status, incoming and outgoing link instances. -/
def exCtx (status : TaskStatus) (fromLinks toLinks : List Nat) : TaskContext :=
  { task := Task.mk 0,
    status := status,
    fromLinks := fromLinks,
    toLinks := toLinks,
    linkOf := exLinkOf,
    linkStatus := exLinkStatus,
    calls := [] }

/-! ## Auxiliary definitions for the statements -/

/-- The links that the loop of `Done` resolves: normal and expression links. -/
def Link.isNormalOrExpression (link : Link) : Bool :=
  decide (link.Type_ = LtNormal ∨ link.Type_ = LtExpression)

/-- The value of the variable `follow` of `Done` for a link that the loop resolves:
the result of `EvalLink` for an expression link, `true` for any other link. -/
def followOf (env : Env) (link : Link) : Bool :=
  if link.Type_ = LtExpression then
    match env.EvalLink link with
    | Except.ok follow => follow
    | Except.error _ => false
  else
    true

/-- The link status that `Done` writes for a value of `follow`. -/
def statusOfFollow (follow : Bool) : LinkStatus :=
  if follow then LinkStatusTrue else LinkStatusFalse

/-- The state in which `Done` starts its loop: the status is already set, no entry yet,
no link followed, no otherwise link met. -/
def doneStart (ctx : TaskContext) : DoneLoopState :=
  { ctx := ctx.SetStatus TaskStatusDone, taskEntries := [], linkFollowed := false,
    otherwiseLinkInst := none }

/-- An example of the capabilities: the activity is done without error, no repeat policy
is configured, and `EvalLink` gives true exactly for the links with an even identity. -/
def exEnv : Env :=
  { EvalActivity := (true, none),
    PostEvalActivity := none,
    EvalLink := fun link => Except.ok (link.ID % 2 == 0),
    GetRepeatData := fun _ => Except.ok { Count := 0, Condition := "" },
    DoRepeat := fun _ _ => (EvalWait, none),
    EvaluateExpression := fun _ => (EvalDone, none) }

/-- An example of the capabilities: the activity fails with a retriable error and the
error-repeat policy has no repeat left. -/
def exRetriableEnv : Env :=
  { exEnv with EvalActivity := (false, some (GoError.activityError "timeout" true)) }

/-- An example of the capabilities: the activity fails with a retriable error and the
lookup of the repeat policy fails. -/
def exLookupFailEnv : Env :=
  { exEnv with
    EvalActivity := (false, some (GoError.activityError "timeout" true)),
    GetRepeatData := fun _ => Except.error (GoError.otherError "storage") }

/-- An example of the capabilities: the activity is not finished yet. -/
def exWaitEnv : Env :=
  { exEnv with EvalActivity := (false, none) }

/-- An example of the capabilities: `EvalLink` fails on the link of identity 13. -/
def exLinkFailEnv : Env :=
  { exEnv with
    EvalLink := fun link =>
      if link.ID = 13 then Except.error (GoError.otherError "bad expression")
      else Except.ok (link.ID % 2 == 0) }

/-- Whether a recorded call is a call of `EvalLink`. -/
def Call.isEvalLink : Call → Bool
  | Call.EvalLink _ => true
  | _ => false

/-- Whether a link status is resolved, that is not pending. -/
def LinkStatus.isResolved (s : LinkStatus) : Bool :=
  decide (s = LinkStatusFalse ∨ s = LinkStatusTrue ∨ s = LinkStatusSkipped)

/-! ## Lemmas on the context capabilities -/

@[simp] theorem SetStatus_status (ctx : TaskContext) (s : TaskStatus) :
    (ctx.SetStatus s).status = s := rfl

@[simp] theorem SetStatus_fromLinks (ctx : TaskContext) (s : TaskStatus) :
    (ctx.SetStatus s).fromLinks = ctx.fromLinks := rfl

@[simp] theorem SetStatus_toLinks (ctx : TaskContext) (s : TaskStatus) :
    (ctx.SetStatus s).toLinks = ctx.toLinks := rfl

@[simp] theorem SetStatus_linkOf (ctx : TaskContext) (s : TaskStatus) :
    (ctx.SetStatus s).linkOf = ctx.linkOf := rfl

@[simp] theorem SetStatus_linkStatus (ctx : TaskContext) (s : TaskStatus) :
    (ctx.SetStatus s).linkStatus = ctx.linkStatus := rfl

@[simp] theorem SetStatus_calls (ctx : TaskContext) (s : TaskStatus) :
    (ctx.SetStatus s).calls = ctx.calls ++ [Call.SetStatus s] := rfl

/-! ## Lemmas on Enter -/

/-- The loop of `Enter` reads only the link statuses. -/
theorem enterLoop_congr (ctx ctx' : TaskContext) (h : ctx'.linkStatus = ctx.linkStatus)
    (l : List Nat) (ready skipped : Bool) :
    enterLoop ctx' l ready skipped = enterLoop ctx l ready skipped := by
  induction l generalizing ready skipped with
  | nil => rfl
  | cons inst rest ih => simp only [enterLoop, h, ih]

/-- A status is below `LinkStatusFalse` exactly when it is pending. -/
theorem toInt_lt_False_iff (s : LinkStatus) :
    s.toInt < LinkStatusFalse.toInt ↔ s = LinkStatusPending := by
  cases s <;> simp [LinkStatus.toInt]

/-- When no link instance is pending, the loop of `Enter` keeps `ready` and clears
`skipped` exactly when some link instance is `LinkStatusTrue`. -/
theorem enterLoop_resolved (ctx : TaskContext) (l : List Nat) (ready skipped : Bool)
    (hres : ∀ inst ∈ l, ctx.linkStatus inst ≠ LinkStatusPending) :
    enterLoop ctx l ready skipped =
      (ready, skipped && !(l.any (fun inst => decide (ctx.linkStatus inst = LinkStatusTrue)))) := by
  induction l generalizing skipped with
  | nil => simp [enterLoop]
  | cons inst rest ih =>
    have h1 : ctx.linkStatus inst ≠ LinkStatusPending := hres inst (List.mem_cons_self _ _)
    have h2 : ∀ i ∈ rest, ctx.linkStatus i ≠ LinkStatusPending :=
      fun i hi => hres i (List.mem_cons_of_mem _ hi)
    have h3 : ¬ (ctx.linkStatus inst).toInt < LinkStatusFalse.toInt := by
      rw [toInt_lt_False_iff]; exact h1
    by_cases ht : ctx.linkStatus inst = LinkStatusTrue
    · simp [enterLoop, ht, ih _ h2, LinkStatus.toInt]
    · simp [enterLoop, h3, ht, ih _ h2]

/-- When some link instance is pending, the loop of `Enter` clears `ready`. -/
theorem enterLoop_pending (ctx : TaskContext) (l : List Nat) (ready skipped : Bool)
    (hp : ∃ inst ∈ l, ctx.linkStatus inst = LinkStatusPending) :
    (enterLoop ctx l ready skipped).1 = false := by
  induction l generalizing skipped with
  | nil => simp at hp
  | cons inst rest ih =>
    by_cases h1 : ctx.linkStatus inst = LinkStatusPending
    · simp [enterLoop, h1, LinkStatus.toInt]
    · have h3 : ¬ (ctx.linkStatus inst).toInt < LinkStatusFalse.toInt := by
        rw [toInt_lt_False_iff]; exact h1
      have hp' : ∃ i ∈ rest, ctx.linkStatus i = LinkStatusPending := by
        obtain ⟨i, hi, hs⟩ := hp
        rcases List.mem_cons.mp hi with rfl | hi'
        · exact absurd hs h1
        · exact ⟨i, hi', hs⟩
      by_cases ht : ctx.linkStatus inst = LinkStatusTrue
      · simp [enterLoop, ht, ih _ hp', LinkStatus.toInt]
      · simp [enterLoop, h3, ht, ih _ hp']

/-! ## Theorems on Enter -/

/-- C1: when the task has at least one incoming link instance and every one of them is
resolved (`LinkStatusFalse`, `LinkStatusTrue` or `LinkStatusSkipped`), `Enter` returns
`EnterEval` and leaves the status `TaskStatusReady` if and only if some incoming link
instance is `LinkStatusTrue`; when none is, it returns `EnterSkip` and leaves the status
`TaskStatusSkipped`. -/
theorem Enter_all_resolved (ctx : TaskContext)
    (hN : 1 ≤ ctx.fromLinks.length)
    (hres : ∀ inst ∈ ctx.fromLinks,
      ctx.linkStatus inst = LinkStatusFalse ∨ ctx.linkStatus inst = LinkStatusTrue ∨
        ctx.linkStatus inst = LinkStatusSkipped) :
    (((Enter ctx).1 = EnterEval ∧ (Enter ctx).2.status = TaskStatusReady) ↔
        ∃ inst ∈ ctx.fromLinks, ctx.linkStatus inst = LinkStatusTrue) ∧
    ((¬ ∃ inst ∈ ctx.fromLinks, ctx.linkStatus inst = LinkStatusTrue) →
        (Enter ctx).1 = EnterSkip ∧ (Enter ctx).2.status = TaskStatusSkipped) := by
  have hne : ¬ ctx.fromLinks.length = 0 := by omega
  have hres' : ∀ inst ∈ ctx.fromLinks, ctx.linkStatus inst ≠ LinkStatusPending := by
    intro inst hi
    rcases hres inst hi with h | h | h <;> simp [h]
  have hflags : enterFlags (ctx.SetStatus TaskStatusEntered) =
      (true, !(ctx.fromLinks.any (fun inst => decide (ctx.linkStatus inst = LinkStatusTrue)))) := by
    simp only [enterFlags, SetStatus_fromLinks, hne, if_false]
    rw [enterLoop_congr ctx (ctx.SetStatus TaskStatusEntered) rfl, enterLoop_resolved ctx _ _ _ hres']
    simp
  by_cases hT : ∃ inst ∈ ctx.fromLinks, ctx.linkStatus inst = LinkStatusTrue
  · have hany : ctx.fromLinks.any (fun inst => decide (ctx.linkStatus inst = LinkStatusTrue))
        = true := by
      simpa [List.any_eq_true] using hT
    simp [Enter, hflags, hany, hT]
  · have hany : ctx.fromLinks.any (fun inst => decide (ctx.linkStatus inst = LinkStatusTrue))
        = false := by
      rw [Bool.eq_false_iff]
      intro h
      exact hT (by simpa [List.any_eq_true] using h)
    simp [Enter, hflags, hany, hT]

/-- Witness of C1 on two incoming link instances, one `LinkStatusTrue` and one
`LinkStatusFalse`. -/
theorem Enter_all_resolved_witness :
    (Enter (exCtx TaskStatusNotStarted [2, 1] [])).1 = EnterEval ∧
      (Enter (exCtx TaskStatusNotStarted [2, 1] [])).2.status = TaskStatusReady :=
  (Enter_all_resolved (exCtx TaskStatusNotStarted [2, 1] []) (by decide) (by decide)).1.mpr
    (by decide)

/-- C2: when the task has at least one incoming link instance and one of them, at any
position, is pending, `Enter` returns `EnterNotReady`, the status after the call is
`TaskStatusEntered`, and the only call made is the one `SetStatus(TaskStatusEntered)`;
the link statuses are untouched. -/
theorem Enter_some_pending (ctx : TaskContext)
    (hN : 1 ≤ ctx.fromLinks.length)
    (hp : ∃ inst ∈ ctx.fromLinks, ctx.linkStatus inst = LinkStatusPending) :
    (Enter ctx).1 = EnterNotReady ∧
      (Enter ctx).2.status = TaskStatusEntered ∧
      (Enter ctx).2.calls = ctx.calls ++ [Call.SetStatus TaskStatusEntered] ∧
      (Enter ctx).2.linkStatus = ctx.linkStatus := by
  have hne : ¬ ctx.fromLinks.length = 0 := by omega
  have hflags : (enterFlags (ctx.SetStatus TaskStatusEntered)).1 = false := by
    simp only [enterFlags, SetStatus_fromLinks, hne, if_false]
    rw [enterLoop_congr ctx (ctx.SetStatus TaskStatusEntered) rfl]
    exact enterLoop_pending ctx _ _ _ hp
  simp [Enter, hflags]

/-- Witness of C2: the pending link instance is the last of three. -/
theorem Enter_some_pending_witness :
    (Enter (exCtx TaskStatusNotStarted [2, 1, 0] [])).1 = EnterNotReady ∧
      (Enter (exCtx TaskStatusNotStarted [2, 1, 0] [])).2.status = TaskStatusEntered ∧
      (Enter (exCtx TaskStatusNotStarted [2, 1, 0] [])).2.calls =
        (exCtx TaskStatusNotStarted [2, 1, 0] []).calls ++ [Call.SetStatus TaskStatusEntered] ∧
      (Enter (exCtx TaskStatusNotStarted [2, 1, 0] [])).2.linkStatus =
        (exCtx TaskStatusNotStarted [2, 1, 0] []).linkStatus :=
  Enter_some_pending (exCtx TaskStatusNotStarted [2, 1, 0] []) (by decide) ⟨0, by decide, by decide⟩

/-- C3: when the task has no incoming link instance, whatever its status before the
call, `Enter` returns `EnterEval` and the status after the call is `TaskStatusReady`. -/
theorem Enter_no_incoming (ctx : TaskContext) (h0 : ctx.fromLinks = []) :
    (Enter ctx).1 = EnterEval ∧ (Enter ctx).2.status = TaskStatusReady := by
  have hflags : enterFlags (ctx.SetStatus TaskStatusEntered) = (true, false) := by
    simp [enterFlags, h0]
  simp [Enter, hflags]

/-- Witness of C3 on a task that was already `TaskStatusDone`. -/
theorem Enter_no_incoming_witness :
    (Enter (exCtx TaskStatusDone [] [1])).1 = EnterEval ∧
      (Enter (exCtx TaskStatusDone [] [1])).2.status = TaskStatusReady :=
  Enter_no_incoming (exCtx TaskStatusDone [] [1]) rfl

/-! ## Lemmas on Done -/

@[simp] theorem SetLinkStatus_linkOf (ctx : TaskContext) (inst : Nat) (s : LinkStatus) :
    (ctx.SetLinkStatus inst s).linkOf = ctx.linkOf := rfl

@[simp] theorem SetLinkStatus_status (ctx : TaskContext) (inst : Nat) (s : LinkStatus) :
    (ctx.SetLinkStatus inst s).status = ctx.status := rfl

@[simp] theorem SetLinkStatus_linkStatus (ctx : TaskContext) (inst : Nat) (s : LinkStatus)
    (j : Nat) :
    (ctx.SetLinkStatus inst s).linkStatus j = if j = inst then s else ctx.linkStatus j := rfl

@[simp] theorem SetLinkStatus_calls (ctx : TaskContext) (inst : Nat) (s : LinkStatus) :
    (ctx.SetLinkStatus inst s).calls = ctx.calls ++ [Call.SetLinkStatus inst s] := rfl

@[simp] theorem record_linkOf (ctx : TaskContext) (c : Call) :
    (ctx.record c).linkOf = ctx.linkOf := rfl

@[simp] theorem record_status (ctx : TaskContext) (c : Call) :
    (ctx.record c).status = ctx.status := rfl

@[simp] theorem record_linkStatus (ctx : TaskContext) (c : Call) :
    (ctx.record c).linkStatus = ctx.linkStatus := rfl

@[simp] theorem record_calls (ctx : TaskContext) (c : Call) :
    (ctx.record c).calls = ctx.calls ++ [c] := rfl

theorem entryFor_congr (ctx ctx' : TaskContext) (h : ctx'.linkOf = ctx.linkOf) (inst : Nat) :
    ctx'.entryFor inst = ctx.entryFor inst := by
  simp [TaskContext.entryFor, h]

@[simp] theorem doneResolve_linkOf (st : DoneLoopState) (inst : Nat) (follow : Bool) :
    (doneResolve st inst follow).ctx.linkOf = st.ctx.linkOf := by
  cases follow <;> rfl

@[simp] theorem doneResolve_status (st : DoneLoopState) (inst : Nat) (follow : Bool) :
    (doneResolve st inst follow).ctx.status = st.ctx.status := by
  cases follow <;> rfl

@[simp] theorem doneResolve_otherwise (st : DoneLoopState) (inst : Nat) (follow : Bool) :
    (doneResolve st inst follow).otherwiseLinkInst = st.otherwiseLinkInst := by
  cases follow <;> rfl

@[simp] theorem doneResolve_linkFollowed (st : DoneLoopState) (inst : Nat) (follow : Bool) :
    (doneResolve st inst follow).linkFollowed = (st.linkFollowed || follow) := by
  cases follow <;> simp [doneResolve]

@[simp] theorem doneResolve_taskEntries (st : DoneLoopState) (inst : Nat) (follow : Bool) :
    (doneResolve st inst follow).taskEntries = st.taskEntries ++ [st.ctx.entryFor inst] := by
  cases follow <;> rfl

@[simp] theorem doneResolve_linkStatus (st : DoneLoopState) (inst : Nat) (follow : Bool)
    (j : Nat) :
    (doneResolve st inst follow).ctx.linkStatus j =
      if j = inst then statusOfFollow follow else st.ctx.linkStatus j := by
  cases follow <;> rfl

/-- One turn of the loop of `Done` on an error link: nothing happens. -/
theorem doneLoop_cons_error (env : Env) (inst : Nat) (rest : List Nat) (st : DoneLoopState)
    (h : (st.ctx.linkOf inst).Type_ = LtError) :
    doneLoop env (inst :: rest) st = doneLoop env rest st := by
  simp [doneLoop, h]

/-- One turn of the loop of `Done` on an otherwise link: the instance is remembered. -/
theorem doneLoop_cons_otherwise (env : Env) (inst : Nat) (rest : List Nat) (st : DoneLoopState)
    (h : (st.ctx.linkOf inst).Type_ = LtOtherwise) :
    doneLoop env (inst :: rest) st =
      doneLoop env rest { st with otherwiseLinkInst := some inst } := by
  simp [doneLoop, h]

/-- One turn of the loop of `Done` on a normal link: the link is followed. -/
theorem doneLoop_cons_normal (env : Env) (inst : Nat) (rest : List Nat) (st : DoneLoopState)
    (h : (st.ctx.linkOf inst).Type_ = LtNormal) :
    doneLoop env (inst :: rest) st = doneLoop env rest (doneResolve st inst true) := by
  simp [doneLoop, h]

/-- One turn of the loop of `Done` on an expression link whose evaluation succeeds. -/
theorem doneLoop_cons_expression_ok (env : Env) (inst : Nat) (rest : List Nat)
    (st : DoneLoopState) (follow : Bool)
    (h : (st.ctx.linkOf inst).Type_ = LtExpression)
    (hev : env.EvalLink (st.ctx.linkOf inst) = Except.ok follow) :
    doneLoop env (inst :: rest) st =
      doneLoop env rest
        (doneResolve { st with ctx := st.ctx.record (Call.EvalLink (st.ctx.linkOf inst)) }
          inst follow) := by
  simp [doneLoop, h, hev]

/-- One turn of the loop of `Done` on an expression link whose evaluation fails. -/
theorem doneLoop_cons_expression_error (env : Env) (inst : Nat) (rest : List Nat)
    (st : DoneLoopState) (err : GoError)
    (h : (st.ctx.linkOf inst).Type_ = LtExpression)
    (hev : env.EvalLink (st.ctx.linkOf inst) = Except.error err) :
    doneLoop env (inst :: rest) st =
      (some err, { st with ctx := st.ctx.record (Call.EvalLink (st.ctx.linkOf inst)) }) := by
  simp [doneLoop, h, hev]

/-- The loop of `Done` never changes the link of an instance. -/
theorem doneLoop_linkOf (env : Env) (l : List Nat) (st : DoneLoopState) :
    (doneLoop env l st).2.ctx.linkOf = st.ctx.linkOf := by
  induction l generalizing st with
  | nil => rfl
  | cons inst rest ih =>
    cases hT : (st.ctx.linkOf inst).Type_ with
    | LtError => rw [doneLoop_cons_error env inst rest st hT]; exact ih _
    | LtOtherwise => rw [doneLoop_cons_otherwise env inst rest st hT]; exact ih _
    | LtNormal =>
      rw [doneLoop_cons_normal env inst rest st hT]
      exact (ih _).trans (doneResolve_linkOf _ _ _)
    | LtExpression =>
      cases hev : env.EvalLink (st.ctx.linkOf inst) with
      | error err => rw [doneLoop_cons_expression_error env inst rest st err hT hev]; rfl
      | ok follow =>
        rw [doneLoop_cons_expression_ok env inst rest st follow hT hev]
        exact (ih _).trans (doneResolve_linkOf _ _ _)

/-- The loop of `Done` never changes the task status. -/
theorem doneLoop_status (env : Env) (l : List Nat) (st : DoneLoopState) :
    (doneLoop env l st).2.ctx.status = st.ctx.status := by
  induction l generalizing st with
  | nil => rfl
  | cons inst rest ih =>
    cases hT : (st.ctx.linkOf inst).Type_ with
    | LtError => rw [doneLoop_cons_error env inst rest st hT]; exact ih _
    | LtOtherwise => rw [doneLoop_cons_otherwise env inst rest st hT]; exact ih _
    | LtNormal =>
      rw [doneLoop_cons_normal env inst rest st hT]
      exact (ih _).trans (doneResolve_status _ _ _)
    | LtExpression =>
      cases hev : env.EvalLink (st.ctx.linkOf inst) with
      | error err => rw [doneLoop_cons_expression_error env inst rest st err hT hev]; rfl
      | ok follow =>
        rw [doneLoop_cons_expression_ok env inst rest st follow hT hev]
        exact (ih _).trans (doneResolve_status _ _ _)

/-- The loop of `Done` when every evaluation of an expression link succeeds: it ends
without error; one entry is appended per normal or expression link, in order;
`linkFollowed` is set when one of these links is followed; `otherwiseLinkInst` is the
last otherwise link met; and exactly the normal and expression link instances are
written, with the status that their value of `follow` gives. -/
theorem doneLoop_success (env : Env) (lk : Nat → Link) (l : List Nat) (st : DoneLoopState)
    (hlk : st.ctx.linkOf = lk)
    (hok : ∀ inst ∈ l, (lk inst).Type_ = LtExpression →
      ∃ b, env.EvalLink (lk inst) = Except.ok b) :
    (doneLoop env l st).1 = none ∧
    (doneLoop env l st).2.taskEntries =
      st.taskEntries ++
        (l.filter (fun i => (lk i).isNormalOrExpression)).map
          (fun i => TaskEntry.mk (lk i).ToTask) ∧
    (doneLoop env l st).2.linkFollowed =
      (st.linkFollowed ||
        l.any (fun i => (lk i).isNormalOrExpression && followOf env (lk i))) ∧
    (doneLoop env l st).2.otherwiseLinkInst =
      ((l.filter (fun i => decide ((lk i).Type_ = LtOtherwise))).getLast?).or
        st.otherwiseLinkInst ∧
    ∀ j, (doneLoop env l st).2.ctx.linkStatus j =
      if j ∈ l ∧ (lk j).isNormalOrExpression = true then statusOfFollow (followOf env (lk j))
      else st.ctx.linkStatus j := by
  induction l generalizing st with
  | nil => simp [doneLoop]
  | cons inst rest ih =>
    have hok' : ∀ i ∈ rest, (lk i).Type_ = LtExpression →
        ∃ b, env.EvalLink (lk i) = Except.ok b :=
      fun i hi => hok i (List.mem_cons_of_mem _ hi)
    cases hT : (lk inst).Type_ with
    | LtError =>
      have hT' : (st.ctx.linkOf inst).Type_ = LtError := by rw [hlk]; exact hT
      rw [doneLoop_cons_error env inst rest st hT']
      obtain ⟨h1, h2, h3, h4, h5⟩ := ih st hlk hok'
      refine ⟨h1, ?_, ?_, ?_, ?_⟩
      · simp [h2, Link.isNormalOrExpression, hT]
      · simp [h3, Link.isNormalOrExpression, hT]
      · simp [h4, hT]
      · intro j
        rw [h5 j]
        by_cases hj : j = inst
        · subst hj; simp [Link.isNormalOrExpression, hT]
        · simp [hj]
    | LtOtherwise =>
      have hT' : (st.ctx.linkOf inst).Type_ = LtOtherwise := by rw [hlk]; exact hT
      rw [doneLoop_cons_otherwise env inst rest st hT']
      obtain ⟨h1, h2, h3, h4, h5⟩ := ih { st with otherwiseLinkInst := some inst } hlk hok'
      refine ⟨h1, ?_, ?_, ?_, ?_⟩
      · simp [h2, Link.isNormalOrExpression, hT]
      · simp [h3, Link.isNormalOrExpression, hT]
      · rw [h4]
        simp only [hT, decide_True, List.filter_cons_of_pos, List.getLast?_cons]
        cases (List.filter (fun i => decide ((lk i).Type_ = LtOtherwise)) rest).getLast? <;> simp
      · intro j
        rw [h5 j]
        by_cases hj : j = inst
        · subst hj; simp [Link.isNormalOrExpression, hT]
        · simp [hj]
    | LtNormal =>
      have hT' : (st.ctx.linkOf inst).Type_ = LtNormal := by rw [hlk]; exact hT
      rw [doneLoop_cons_normal env inst rest st hT']
      obtain ⟨h1, h2, h3, h4, h5⟩ :=
        ih (doneResolve st inst true) ((doneResolve_linkOf _ _ _).trans hlk) hok'
      have hf : followOf env (lk inst) = true := by simp [followOf, hT]
      refine ⟨h1, ?_, ?_, ?_, ?_⟩
      · simp [h2, Link.isNormalOrExpression, hT, TaskContext.entryFor, hlk]
      · simp [h3, Link.isNormalOrExpression, hT, hf]
      · simp [h4, hT]
      · intro j
        rw [h5 j]
        by_cases hj : j = inst
        · subst hj; simp [Link.isNormalOrExpression, hT, hf]
        · simp [hj]
    | LtExpression =>
      have hT' : (st.ctx.linkOf inst).Type_ = LtExpression := by rw [hlk]; exact hT
      obtain ⟨b, hb⟩ := hok inst (List.mem_cons_self _ _) hT
      have hb' : env.EvalLink (st.ctx.linkOf inst) = Except.ok b := by rw [hlk]; exact hb
      rw [doneLoop_cons_expression_ok env inst rest st b hT' hb']
      obtain ⟨h1, h2, h3, h4, h5⟩ :=
        ih (doneResolve { st with ctx := st.ctx.record (Call.EvalLink (st.ctx.linkOf inst)) }
          inst b) ((doneResolve_linkOf _ _ _).trans hlk) hok'
      have hf : followOf env (lk inst) = b := by simp [followOf, hT, hb]
      refine ⟨h1, ?_, ?_, ?_, ?_⟩
      · rw [h2]; simp [Link.isNormalOrExpression, hT, TaskContext.entryFor, hlk]
      · rw [h3]; simp [Link.isNormalOrExpression, hT, hf, Bool.or_assoc]
      · simp [h4, hT]
      · intro j
        rw [h5 j]
        by_cases hj : j = inst
        · subst hj; simp [Link.isNormalOrExpression, hT, hf]
        · simp [hj]

/-- When the loop of `Done` ends without error, every expression link it met was
evaluated successfully. -/
theorem doneLoop_no_error (env : Env) (lk : Nat → Link) (l : List Nat) (st : DoneLoopState)
    (hlk : st.ctx.linkOf = lk) (h : (doneLoop env l st).1 = none) :
    ∀ inst ∈ l, (lk inst).Type_ = LtExpression → ∃ b, env.EvalLink (lk inst) = Except.ok b := by
  induction l generalizing st with
  | nil => intro inst hi; simp at hi
  | cons i rest ih =>
    subst hlk
    cases hT : (st.ctx.linkOf i).Type_ with
    | LtError =>
      rw [doneLoop_cons_error env i rest st hT] at h
      intro inst hi hE
      rcases List.mem_cons.mp hi with rfl | hi'
      · rw [hT] at hE; cases hE
      · exact ih st rfl h inst hi' hE
    | LtOtherwise =>
      rw [doneLoop_cons_otherwise env i rest st hT] at h
      intro inst hi hE
      rcases List.mem_cons.mp hi with rfl | hi'
      · rw [hT] at hE; cases hE
      · exact ih { st with otherwiseLinkInst := some i } rfl h inst hi' hE
    | LtNormal =>
      rw [doneLoop_cons_normal env i rest st hT] at h
      intro inst hi hE
      rcases List.mem_cons.mp hi with rfl | hi'
      · rw [hT] at hE; cases hE
      · exact ih (doneResolve st i true) (doneResolve_linkOf _ _ _) h inst hi' hE
    | LtExpression =>
      cases hev : env.EvalLink (st.ctx.linkOf i) with
      | error err =>
        rw [doneLoop_cons_expression_error env i rest st err hT hev] at h
        cases h
      | ok follow =>
        rw [doneLoop_cons_expression_ok env i rest st follow hT hev] at h
        intro inst hi hE
        rcases List.mem_cons.mp hi with rfl | hi'
        · exact ⟨follow, hev⟩
        · exact ih
            (doneResolve { st with ctx := st.ctx.record (Call.EvalLink (st.ctx.linkOf i)) }
              i follow) (doneResolve_linkOf _ _ _) h inst hi' hE

/-- With at least one outgoing link instance, the error returned by `Done` is the one
on which its loop ended. -/
theorem Done_err (env : Env) (ctx : TaskContext) (hK : 1 ≤ ctx.toLinks.length) :
    (Done env ctx).1.err = (doneLoop env ctx.toLinks (doneStart ctx)).1 := by
  have hK' : ctx.toLinks.length > 0 := hK
  simp only [Done, hK', if_true, doneStart]
  generalize doneLoop env ctx.toLinks _ = r
  rcases r with ⟨_ | e, st⟩
  · rcases st with ⟨c, t, _ | _, _ | o⟩ <;> rfl
  · rfl

/-- The result of `Done` when its loop ends without error, no link was followed and an
otherwise link was met. -/
theorem Done_eq_otherwise (env : Env) (ctx : TaskContext) (ow : Nat)
    (hK : 1 ≤ ctx.toLinks.length)
    (h1 : (doneLoop env ctx.toLinks (doneStart ctx)).1 = none)
    (h2 : (doneLoop env ctx.toLinks (doneStart ctx)).2.linkFollowed = false)
    (h3 : (doneLoop env ctx.toLinks (doneStart ctx)).2.otherwiseLinkInst = some ow) :
    Done env ctx =
      ({ notifyFlow := false,
         taskEntries := some ((doneLoop env ctx.toLinks (doneStart ctx)).2.taskEntries ++
           [(doneLoop env ctx.toLinks (doneStart ctx)).2.ctx.entryFor ow]),
         err := none },
        (doneLoop env ctx.toLinks (doneStart ctx)).2.ctx.SetLinkStatus ow LinkStatusTrue) := by
  have hK' : ctx.toLinks.length > 0 := hK
  simp only [Done, hK', if_true]
  simp only [doneStart] at h1 h2 h3 ⊢
  generalize doneLoop env ctx.toLinks _ = r at h1 h2 h3 ⊢
  rcases r with ⟨e, st⟩
  simp only at h1 h2 h3
  subst h1
  simp only [h2, h3]

/-- The result of `Done` when its loop ends without error and either a link was followed
or no otherwise link was met. -/
theorem Done_eq_plain (env : Env) (ctx : TaskContext)
    (hK : 1 ≤ ctx.toLinks.length)
    (h1 : (doneLoop env ctx.toLinks (doneStart ctx)).1 = none)
    (h2 : (doneLoop env ctx.toLinks (doneStart ctx)).2.linkFollowed = true ∨
      (doneLoop env ctx.toLinks (doneStart ctx)).2.otherwiseLinkInst = none) :
    Done env ctx =
      ({ notifyFlow := false,
         taskEntries := some (doneLoop env ctx.toLinks (doneStart ctx)).2.taskEntries,
         err := none },
        (doneLoop env ctx.toLinks (doneStart ctx)).2.ctx) := by
  have hK' : ctx.toLinks.length > 0 := hK
  simp only [Done, hK', if_true]
  simp only [doneStart] at h1 h2 ⊢
  generalize doneLoop env ctx.toLinks _ = r at h1 h2 ⊢
  rcases r with ⟨e, st⟩
  simp only at h1 h2
  subst h1
  rcases h2 with h2 | h2
  · simp only [h2]
  · simp only [h2]
    cases st.linkFollowed <;> rfl

/-! ## Theorems on Done -/

/-- C4: for a task with at least one outgoing link instance on which every `EvalLink`
call succeeds, `Done` sets the task status to `TaskStatusDone` and returns
`notifyFlow = false` with a nil error; every normal link instance ends `LinkStatusTrue`;
every expression link instance ends `LinkStatusTrue` when `EvalLink` returned true and
`LinkStatusFalse` when it returned false; every error link instance keeps the status it
had; and the returned entries are one entry per normal or expression link, in link order,
each naming the target of its link, followed by nothing or by the single entry of an
otherwise link (so that no entry is produced for an error link). -/
theorem Done_links_resolved (env : Env) (ctx : TaskContext)
    (hK : 1 ≤ ctx.toLinks.length)
    (hok : ∀ inst ∈ ctx.toLinks, (ctx.linkOf inst).Type_ = LtExpression →
      ∃ b, env.EvalLink (ctx.linkOf inst) = Except.ok b) :
    (Done env ctx).2.status = TaskStatusDone ∧
    (Done env ctx).1.notifyFlow = false ∧
    (Done env ctx).1.err = none ∧
    (∀ inst ∈ ctx.toLinks, (ctx.linkOf inst).Type_ = LtNormal →
      (Done env ctx).2.linkStatus inst = LinkStatusTrue) ∧
    (∀ inst ∈ ctx.toLinks, (ctx.linkOf inst).Type_ = LtExpression →
      ∀ b, env.EvalLink (ctx.linkOf inst) = Except.ok b →
        (Done env ctx).2.linkStatus inst = if b then LinkStatusTrue else LinkStatusFalse) ∧
    (∀ inst, (ctx.linkOf inst).Type_ = LtError →
      (Done env ctx).2.linkStatus inst = ctx.linkStatus inst) ∧
    ∃ tail,
      (tail = [] ∨ ∃ ow ∈ ctx.toLinks, (ctx.linkOf ow).Type_ = LtOtherwise ∧
        tail = [TaskEntry.mk (ctx.linkOf ow).ToTask]) ∧
      (Done env ctx).1.taskEntries =
        some ((ctx.toLinks.filter (fun inst => (ctx.linkOf inst).isNormalOrExpression)).map
          (fun inst => TaskEntry.mk (ctx.linkOf inst).ToTask) ++ tail) := by
  obtain ⟨h1, h2, h3, h4, h5⟩ :=
    doneLoop_success env ctx.linkOf ctx.toLinks (doneStart ctx) rfl hok
  have hLk : (doneLoop env ctx.toLinks (doneStart ctx)).2.ctx.linkOf = ctx.linkOf :=
    doneLoop_linkOf env ctx.toLinks (doneStart ctx)
  have hSt : (doneLoop env ctx.toLinks (doneStart ctx)).2.ctx.status = TaskStatusDone :=
    doneLoop_status env ctx.toLinks (doneStart ctx)
  have hNormal : ∀ inst ∈ ctx.toLinks, (ctx.linkOf inst).Type_ = LtNormal →
      (doneLoop env ctx.toLinks (doneStart ctx)).2.ctx.linkStatus inst = LinkStatusTrue := by
    intro inst hi hT
    rw [h5 inst]
    simp [hi, Link.isNormalOrExpression, hT, followOf, statusOfFollow]
  have hExpr : ∀ inst ∈ ctx.toLinks, (ctx.linkOf inst).Type_ = LtExpression →
      ∀ b, env.EvalLink (ctx.linkOf inst) = Except.ok b →
        (doneLoop env ctx.toLinks (doneStart ctx)).2.ctx.linkStatus inst =
          if b then LinkStatusTrue else LinkStatusFalse := by
    intro inst hi hT b hb
    rw [h5 inst]
    simp [hi, Link.isNormalOrExpression, hT, followOf, statusOfFollow, hb]
  have hError : ∀ inst, (ctx.linkOf inst).Type_ = LtError →
      (doneLoop env ctx.toLinks (doneStart ctx)).2.ctx.linkStatus inst = ctx.linkStatus inst := by
    intro inst hT
    rw [h5 inst]
    simp [Link.isNormalOrExpression, hT, doneStart]
  simp only [doneStart, List.nil_append] at h2
  by_cases hcase : (doneLoop env ctx.toLinks (doneStart ctx)).2.linkFollowed = false ∧
      ∃ ow, (doneLoop env ctx.toLinks (doneStart ctx)).2.otherwiseLinkInst = some ow
  · obtain ⟨hf, ow, how⟩ := hcase
    have hmem : ow ∈ ctx.toLinks.filter (fun i => decide ((ctx.linkOf i).Type_ = LtOtherwise)) := by
      rw [h4] at how
      simp only [doneStart, Option.or_none] at how
      exact List.mem_of_getLast?_eq_some how
    have howT : (ctx.linkOf ow).Type_ = LtOtherwise := by
      simpa using (List.mem_filter.mp hmem).2
    rw [Done_eq_otherwise env ctx ow hK h1 hf how]
    refine ⟨?_, rfl, rfl, ?_, ?_, ?_, ?_⟩
    · simp [hSt]
    · intro inst hi hT
      have hne : inst ≠ ow := by
        intro h; rw [h, howT] at hT; cases hT
      simp [hne, hNormal inst hi hT]
    · intro inst hi hT b hb
      have hne : inst ≠ ow := by
        intro h; rw [h, howT] at hT; cases hT
      simp only [SetLinkStatus_linkStatus, hne, if_false]
      exact hExpr inst hi hT b hb
    · intro inst hT
      have hne : inst ≠ ow := by
        intro h; rw [h, howT] at hT; cases hT
      simp only [SetLinkStatus_linkStatus, hne, if_false]
      exact hError inst hT
    · refine ⟨[TaskEntry.mk (ctx.linkOf ow).ToTask],
        Or.inr ⟨ow, (List.mem_filter.mp hmem).1, howT, rfl⟩, ?_⟩
      simp only [doneStart] at hLk
      simp only [h2, TaskContext.entryFor, hLk, doneStart]
  · have hplain : (doneLoop env ctx.toLinks (doneStart ctx)).2.linkFollowed = true ∨
        (doneLoop env ctx.toLinks (doneStart ctx)).2.otherwiseLinkInst = none := by
      by_cases hf : (doneLoop env ctx.toLinks (doneStart ctx)).2.linkFollowed = true
      · exact Or.inl hf
      · right
        cases ho : (doneLoop env ctx.toLinks (doneStart ctx)).2.otherwiseLinkInst with
        | none => rfl
        | some ow => exact absurd ⟨by simpa using hf, ow, ho⟩ hcase
    rw [Done_eq_plain env ctx hK h1 hplain]
    refine ⟨hSt, rfl, rfl, hNormal, hExpr, hError, [], Or.inl rfl, ?_⟩
    simp only [h2, List.append_nil, doneStart]

/-- An example of a task with five outgoing link instances: a normal link, an expression
link that evaluates true, one that evaluates false, an error link and an otherwise
link. -/
theorem Done_links_resolved_witness :
    (Done exEnv (exCtx TaskStatusReady [] [4, 12, 11, 31, 21])).2.status = TaskStatusDone ∧
    (Done exEnv (exCtx TaskStatusReady [] [4, 12, 11, 31, 21])).1.notifyFlow = false ∧
    (Done exEnv (exCtx TaskStatusReady [] [4, 12, 11, 31, 21])).1.err = none ∧
    (Done exEnv (exCtx TaskStatusReady [] [4, 12, 11, 31, 21])).2.linkStatus 4 = LinkStatusTrue ∧
    (Done exEnv (exCtx TaskStatusReady [] [4, 12, 11, 31, 21])).2.linkStatus 11 =
      LinkStatusFalse ∧
    (Done exEnv (exCtx TaskStatusReady [] [4, 12, 11, 31, 21])).2.linkStatus 31 =
      LinkStatusFalse :=
  have h := Done_links_resolved exEnv (exCtx TaskStatusReady [] [4, 12, 11, 31, 21])
    (by decide) (fun _ _ _ => ⟨_, rfl⟩)
  ⟨h.1, h.2.1, h.2.2.1, h.2.2.2.1 4 (by decide) (by decide),
    h.2.2.2.2.1 11 (by decide) (by decide) false rfl,
    (h.2.2.2.2.2.1 31 (by decide)).trans (by decide)⟩

/-- C5: for a task whose outgoing links contain exactly one otherwise link, `ow`, and on
which `Done` completes without error: if no normal or expression link was followed (there
is no normal link and every expression link evaluated false), the otherwise link instance
ends `LinkStatusTrue` and the entry for its target is the last returned entry, after the
entries of all normal and expression links; if at least one link was followed (a normal
link, or an expression link that evaluated true), the otherwise link instance keeps its
prior status and the returned entries are those of the normal and expression links
only. -/
theorem Done_otherwise_link (env : Env) (ctx : TaskContext) (ow : Nat)
    (how : ctx.toLinks.filter (fun inst => decide ((ctx.linkOf inst).Type_ = LtOtherwise)) = [ow])
    (herr : (Done env ctx).1.err = none) :
    ((∀ inst ∈ ctx.toLinks, (ctx.linkOf inst).Type_ ≠ LtNormal ∧
        ((ctx.linkOf inst).Type_ = LtExpression →
          env.EvalLink (ctx.linkOf inst) = Except.ok false)) →
      (Done env ctx).2.linkStatus ow = LinkStatusTrue ∧
      (Done env ctx).1.taskEntries =
        some ((ctx.toLinks.filter (fun inst => (ctx.linkOf inst).isNormalOrExpression)).map
          (fun inst => TaskEntry.mk (ctx.linkOf inst).ToTask) ++
            [TaskEntry.mk (ctx.linkOf ow).ToTask])) ∧
    ((∃ inst ∈ ctx.toLinks, (ctx.linkOf inst).Type_ = LtNormal ∨
        ((ctx.linkOf inst).Type_ = LtExpression ∧
          env.EvalLink (ctx.linkOf inst) = Except.ok true)) →
      (Done env ctx).2.linkStatus ow = ctx.linkStatus ow ∧
      (Done env ctx).1.taskEntries =
        some ((ctx.toLinks.filter (fun inst => (ctx.linkOf inst).isNormalOrExpression)).map
          (fun inst => TaskEntry.mk (ctx.linkOf inst).ToTask))) := by
  have hmem : ow ∈ ctx.toLinks.filter (fun i => decide ((ctx.linkOf i).Type_ = LtOtherwise)) := by
    rw [how]; exact List.mem_singleton_self ow
  have howT : (ctx.linkOf ow).Type_ = LtOtherwise := by
    simpa using (List.mem_filter.mp hmem).2
  have hK : 1 ≤ ctx.toLinks.length :=
    List.length_pos_of_mem (List.mem_filter.mp hmem).1
  rw [Done_err env ctx hK] at herr
  have hok := doneLoop_no_error env ctx.linkOf ctx.toLinks (doneStart ctx) rfl herr
  obtain ⟨h1, h2, h3, h4, h5⟩ :=
    doneLoop_success env ctx.linkOf ctx.toLinks (doneStart ctx) rfl hok
  have hLk : (doneLoop env ctx.toLinks (doneStart ctx)).2.ctx.linkOf = ctx.linkOf :=
    doneLoop_linkOf env ctx.toLinks (doneStart ctx)
  have hOw : (doneLoop env ctx.toLinks (doneStart ctx)).2.otherwiseLinkInst = some ow := by
    rw [h4, how]; rfl
  have hOwSt : (doneLoop env ctx.toLinks (doneStart ctx)).2.ctx.linkStatus ow =
      ctx.linkStatus ow := by
    rw [h5 ow]
    simp [Link.isNormalOrExpression, howT, doneStart]
  simp only [doneStart, List.nil_append, Bool.false_or] at h2 h3
  constructor
  · intro hnone
    have hf : (doneLoop env ctx.toLinks (doneStart ctx)).2.linkFollowed = false := by
      simp only [doneStart]
      rw [h3, List.any_eq_false]
      intro inst hi
      obtain ⟨hN, hE⟩ := hnone inst hi
      cases hT : (ctx.linkOf inst).Type_ with
      | LtNormal => exact absurd hT hN
      | LtExpression => simp [followOf, hT, hE hT]
      | LtOtherwise => simp [Link.isNormalOrExpression, hT]
      | LtError => simp [Link.isNormalOrExpression, hT]
    rw [Done_eq_otherwise env ctx ow hK h1 hf hOw]
    refine ⟨by simp, ?_⟩
    simp only [doneStart] at hLk
    simp only [h2, TaskContext.entryFor, hLk, doneStart]
  · intro hsome
    have hf : (doneLoop env ctx.toLinks (doneStart ctx)).2.linkFollowed = true := by
      simp only [doneStart]
      rw [h3, List.any_eq_true]
      obtain ⟨inst, hi, hT | ⟨hT, hE⟩⟩ := hsome
      · exact ⟨inst, hi, by simp [Link.isNormalOrExpression, followOf, hT]⟩
      · exact ⟨inst, hi, by simp [Link.isNormalOrExpression, followOf, hT, hE]⟩
    rw [Done_eq_plain env ctx hK h1 (Or.inl hf)]
    refine ⟨hOwSt, ?_⟩
    simp only [h2, doneStart]

/-- An example for C5: an expression link that evaluates false and an otherwise link; the
otherwise link instance ends `LinkStatusTrue` and both targets are entered. -/
theorem Done_otherwise_link_witness :
    (Done exEnv (exCtx TaskStatusReady [] [11, 20])).2.linkStatus 20 = LinkStatusTrue ∧
    (Done exEnv (exCtx TaskStatusReady [] [11, 20])).1.taskEntries =
      some [TaskEntry.mk (Task.mk 11), TaskEntry.mk (Task.mk 20)] :=
  (Done_otherwise_link exEnv (exCtx TaskStatusReady [] [11, 20]) 20 (by decide) (by decide)).1
    (by decide)

/-! ## Lemmas and theorems on Skip -/

/-- The loop of `Skip`: one entry per link instance in order, every link instance of the
list is set `LinkStatusSkipped` and no other is written, and the calls made are these
`SetStatus` calls on the link instances. -/
theorem skipLoop_spec (lk : Nat → Link) (l : List Nat) (ctx : TaskContext)
    (taskEntries : List TaskEntry) (hlk : ctx.linkOf = lk) :
    (skipLoop l ctx taskEntries).2 =
      taskEntries ++ l.map (fun inst => TaskEntry.mk (lk inst).ToTask) ∧
    (skipLoop l ctx taskEntries).1.status = ctx.status ∧
    (skipLoop l ctx taskEntries).1.linkOf = lk ∧
    (skipLoop l ctx taskEntries).1.calls =
      ctx.calls ++ l.map (fun inst => Call.SetLinkStatus inst LinkStatusSkipped) ∧
    ∀ j, (skipLoop l ctx taskEntries).1.linkStatus j =
      if j ∈ l then LinkStatusSkipped else ctx.linkStatus j := by
  induction l generalizing ctx taskEntries with
  | nil => simp [skipLoop, hlk]
  | cons inst rest ih =>
    obtain ⟨h1, h2, h3, h4, h5⟩ :=
      ih (ctx.SetLinkStatus inst LinkStatusSkipped) (taskEntries ++ [ctx.entryFor inst])
        ((SetLinkStatus_linkOf _ _ _).trans hlk)
    simp only [skipLoop]
    refine ⟨?_, ?_, h3, ?_, ?_⟩
    · rw [h1]; simp [TaskContext.entryFor, hlk]
    · rw [h2]; rfl
    · rw [h4]; simp
    · intro j
      rw [h5 j]
      by_cases hj : j = inst
      · subst hj; simp
      · simp [hj]

/-- C6: `Skip` sets the task status to `TaskStatusSkipped`; with no outgoing link instance
it returns `notifyFlow = true` and nil entries; with at least one it sets every outgoing
link instance to `LinkStatusSkipped`, whatever the link type, and returns
`notifyFlow = false` with one entry per outgoing link, the i-th naming the target of the
i-th link.  The calls made are `SetStatus(TaskStatusSkipped)` followed by one `SetStatus`
per link instance, so that `EvalLink` is never called. -/
theorem Skip_propagates (ctx : TaskContext) :
    (Skip ctx).2.status = TaskStatusSkipped ∧
    (Skip ctx).2.calls =
      ctx.calls ++ [Call.SetStatus TaskStatusSkipped] ++
        ctx.toLinks.map (fun inst => Call.SetLinkStatus inst LinkStatusSkipped) ∧
    (ctx.toLinks.length = 0 → (Skip ctx).1 = (true, none)) ∧
    (1 ≤ ctx.toLinks.length →
      (∀ inst ∈ ctx.toLinks, (Skip ctx).2.linkStatus inst = LinkStatusSkipped) ∧
      (Skip ctx).1 =
        (false, some (ctx.toLinks.map (fun inst => TaskEntry.mk (ctx.linkOf inst).ToTask))) ∧
      ((Skip ctx).1.2.map List.length) = some ctx.toLinks.length) := by
  by_cases hK : ctx.toLinks.length > 0
  · obtain ⟨h1, h2, _, h4, h5⟩ :=
      skipLoop_spec ctx.linkOf ctx.toLinks (ctx.SetStatus TaskStatusSkipped) [] rfl
    have hne : ctx.toLinks.length ≠ 0 := by omega
    simp only [Skip, hK, if_true]
    refine ⟨by rw [h2]; rfl, by rw [h4]; rfl, fun h0 => absurd h0 hne, fun _ => ⟨?_, ?_, ?_⟩⟩
    · intro inst hi
      rw [h5 inst]
      simp [hi]
    · rw [h1]; rfl
    · rw [h1]; simp
  · have h0 : ctx.toLinks = [] := List.length_eq_zero.mp (by omega)
    simp [Skip, h0]

/-- An example for C6: the four outgoing link instances have the four link types and
different prior statuses. -/
theorem Skip_propagates_witness :
    (∀ inst ∈ [1, 12, 23, 30],
      (Skip (exCtx TaskStatusReady [] [1, 12, 23, 30])).2.linkStatus inst = LinkStatusSkipped) ∧
    (Skip (exCtx TaskStatusReady [] [1, 12, 23, 30])).1 =
      (false, some [TaskEntry.mk (Task.mk 1), TaskEntry.mk (Task.mk 12),
        TaskEntry.mk (Task.mk 23), TaskEntry.mk (Task.mk 30)]) :=
  have h := (Skip_propagates (exCtx TaskStatusReady [] [1, 12, 23, 30])).2.2.2 (by decide)
  ⟨h.1, h.2.1⟩

/-! ## Lemmas and theorems on Error -/

/-- The first loop of `Error` finds exactly whether an error link exists. -/
theorem errorHandled_iff (ctx : TaskContext) (l : List Nat) :
    errorHandled ctx l = true ↔ ∃ inst ∈ l, (ctx.linkOf inst).Type_ = LtError := by
  induction l with
  | nil => simp [errorHandled]
  | cons inst rest ih =>
    by_cases hT : (ctx.linkOf inst).Type_ = LtError
    · simp [errorHandled, hT]
    · simp [errorHandled, hT, ih]

/-- The second loop of `Error`: one entry per link instance in order; every link instance
of the list is written, `LinkStatusTrue` for an error link and `LinkStatusFalse` for any
other, and no other link instance is written. -/
theorem errorLoop_spec (lk : Nat → Link) (l : List Nat) (ctx : TaskContext)
    (taskEntries : List TaskEntry) (hlk : ctx.linkOf = lk) :
    (errorLoop l ctx taskEntries).2 =
      taskEntries ++ l.map (fun inst => TaskEntry.mk (lk inst).ToTask) ∧
    (errorLoop l ctx taskEntries).1.status = ctx.status ∧
    (errorLoop l ctx taskEntries).1.linkOf = lk ∧
    ∀ j, (errorLoop l ctx taskEntries).1.linkStatus j =
      if j ∈ l then (if (lk j).Type_ = LtError then LinkStatusTrue else LinkStatusFalse)
      else ctx.linkStatus j := by
  induction l generalizing ctx taskEntries with
  | nil => simp [errorLoop, hlk]
  | cons inst rest ih =>
    by_cases hT : (lk inst).Type_ = LtError
    · have hT' : (ctx.linkOf inst).Type_ = LtError := by rw [hlk]; exact hT
      obtain ⟨h1, h2, h3, h5⟩ :=
        ih (ctx.SetLinkStatus inst LinkStatusTrue) (taskEntries ++ [ctx.entryFor inst])
          ((SetLinkStatus_linkOf _ _ _).trans hlk)
      simp only [errorLoop, hT', if_true]
      refine ⟨?_, ?_, h3, ?_⟩
      · rw [h1]; simp [TaskContext.entryFor, hlk]
      · rw [h2]; rfl
      · intro j
        rw [h5 j]
        by_cases hj : j = inst
        · subst hj; simp [hT]
        · simp [hj]
    · have hT' : ¬ (ctx.linkOf inst).Type_ = LtError := by rw [hlk]; exact hT
      obtain ⟨h1, h2, h3, h5⟩ :=
        ih (ctx.SetLinkStatus inst LinkStatusFalse) (taskEntries ++ [ctx.entryFor inst])
          ((SetLinkStatus_linkOf _ _ _).trans hlk)
      simp only [errorLoop, hT', if_false]
      refine ⟨?_, ?_, h3, ?_⟩
      · rw [h1]; simp [TaskContext.entryFor, hlk]
      · rw [h2]; rfl
      · intro j
        rw [h5 j]
        by_cases hj : j = inst
        · subst hj; simp [hT]
        · simp [hj]

/-- C7: for a task with at least one outgoing link instance of which at least one is an
error link, `Error` returns `handled = true`, sets every error link instance to
`LinkStatusTrue` and every other outgoing link instance to `LinkStatusFalse`, and
returns one entry per outgoing link, the i-th naming the target of the i-th link. -/
theorem Error_handled (ctx : TaskContext) (err : GoError)
    (hK : 1 ≤ ctx.toLinks.length)
    (hE : ∃ inst ∈ ctx.toLinks, (ctx.linkOf inst).Type_ = LtError) :
    (Error ctx err).1 =
      (true, some (ctx.toLinks.map (fun inst => TaskEntry.mk (ctx.linkOf inst).ToTask))) ∧
    ((Error ctx err).1.2.map List.length) = some ctx.toLinks.length ∧
    (∀ inst ∈ ctx.toLinks, (ctx.linkOf inst).Type_ = LtError →
      (Error ctx err).2.linkStatus inst = LinkStatusTrue) ∧
    (∀ inst ∈ ctx.toLinks, (ctx.linkOf inst).Type_ ≠ LtError →
      (Error ctx err).2.linkStatus inst = LinkStatusFalse) := by
  have hK' : ctx.toLinks.length > 0 := hK
  have hH : errorHandled ctx ctx.toLinks = true := (errorHandled_iff ctx ctx.toLinks).mpr hE
  obtain ⟨h1, _, _, h5⟩ := errorLoop_spec ctx.linkOf ctx.toLinks ctx [] rfl
  simp only [Error, hK', hH, if_true]
  refine ⟨by rw [h1]; rfl, by rw [h1]; simp, ?_, ?_⟩
  · intro inst hi hT
    rw [h5 inst]; simp [hi, hT]
  · intro inst hi hT
    rw [h5 inst]; simp [hi, hT]

/-- An example for C7: an error link and a normal link. -/
theorem Error_handled_witness :
    (Error (exCtx TaskStatusFailed [] [30, 4]) (GoError.otherError "boom")).1 =
      (true, some [TaskEntry.mk (Task.mk 30), TaskEntry.mk (Task.mk 4)]) ∧
    (Error (exCtx TaskStatusFailed [] [30, 4]) (GoError.otherError "boom")).2.linkStatus 30 =
      LinkStatusTrue ∧
    (Error (exCtx TaskStatusFailed [] [30, 4]) (GoError.otherError "boom")).2.linkStatus 4 =
      LinkStatusFalse :=
  have h := Error_handled (exCtx TaskStatusFailed [] [30, 4]) (GoError.otherError "boom")
    (by decide) ⟨30, by decide, by decide⟩
  ⟨h.1, h.2.2.1 30 (by decide) (by decide), h.2.2.2 4 (by decide) (by decide)⟩

/-- C8: for a task none of whose outgoing link instances is an error link, a task without
outgoing link included, `Error` returns `handled = false` with nil entries and leaves the
context as it was: no link status and no task status is changed, and no call is made. -/
theorem Error_unhandled (ctx : TaskContext) (err : GoError)
    (hE : ∀ inst ∈ ctx.toLinks, (ctx.linkOf inst).Type_ ≠ LtError) :
    (Error ctx err).1 = (false, none) ∧
    (Error ctx err).2.linkStatus = ctx.linkStatus ∧
    (Error ctx err).2.status = ctx.status ∧
    (Error ctx err).2.calls = ctx.calls := by
  have hH : errorHandled ctx ctx.toLinks = false := by
    rw [Bool.eq_false_iff]
    intro h
    obtain ⟨inst, hi, hT⟩ := (errorHandled_iff ctx ctx.toLinks).mp h
    exact hE inst hi hT
  by_cases hK : ctx.toLinks.length > 0
  · simp [Error, hK, hH]
  · simp [Error, hK]

/-- An example for C8: a normal, an expression and an otherwise link, no error link. -/
theorem Error_unhandled_witness :
    (Error (exCtx TaskStatusFailed [] [4, 12, 21]) (GoError.otherError "boom")).1 =
      (false, none) ∧
    (Error (exCtx TaskStatusFailed [] [4, 12, 21]) (GoError.otherError "boom")).2.status =
      TaskStatusFailed :=
  have h := Error_unhandled (exCtx TaskStatusFailed [] [4, 12, 21]) (GoError.otherError "boom")
    (by decide)
  ⟨h.1, h.2.2.1⟩

/-! ## Theorems on Eval -/

/-- C9: for a task context whose status is not `TaskStatusSkipped` and whose activity
evaluation returns an error that is either not retriable, or retriable while the
error-repeat policy is fetched successfully with a `Count` not greater than 0, `Eval`
sets the task status to `TaskStatusFailed` and returns `EvalFail` with exactly the
error of the activity; none of the calls it makes is a `DoRepeat`. -/
theorem Eval_activity_error_fails (env : Env) (ctx : TaskContext) (done : Bool) (err : GoError)
    (hs : ctx.status ≠ TaskStatusSkipped)
    (hact : env.EvalActivity = (done, some err))
    (hr : err.isRetriable = false ∨
      (err.isRetriable = true ∧
        ∃ repeatData, env.GetRepeatData RepeatKey.ErrorRepeatData = Except.ok repeatData ∧
          ¬ repeatData.Count > 0)) :
    (Eval env ctx).1 = (EvalFail, some err) ∧
    (Eval env ctx).2.status = TaskStatusFailed ∧
    ∃ made, (Eval env ctx).2.calls = ctx.calls ++ made ∧
      Call.SetStatus TaskStatusFailed ∈ made ∧
      ∀ data key, Call.DoRepeat data key ∉ made := by
  rcases hr with hnr | ⟨hre, repeatData, hget, hcount⟩
  · refine ⟨?_, ?_, [Call.EvalActivity, Call.SetStatus TaskStatusFailed], ?_, ?_, ?_⟩
    · simp [Eval, hs, hact, hnr]
    · simp [Eval, hs, hact, hnr]
    · simp [Eval, hs, hact, hnr]
    · simp
    · intro data key h; simp at h
  · refine ⟨?_, ?_, [Call.EvalActivity, Call.GetRepeatData RepeatKey.ErrorRepeatData,
      Call.SetStatus TaskStatusFailed], ?_, ?_, ?_⟩
    · simp [Eval, hs, hact, hre, hget, hcount]
    · simp [Eval, hs, hact, hre, hget, hcount]
    · simp [Eval, hs, hact, hre, hget, hcount]
    · simp
    · intro data key h; simp at h

/-- An example for C9: a retriable error with an exhausted repeat policy. -/
theorem Eval_activity_error_fails_witness :
    (Eval exRetriableEnv (exCtx TaskStatusReady [] [])).1 =
      (EvalFail, some (GoError.activityError "timeout" true)) ∧
    (Eval exRetriableEnv (exCtx TaskStatusReady [] [])).2.status = TaskStatusFailed :=
  have h := Eval_activity_error_fails exRetriableEnv (exCtx TaskStatusReady [] []) false
    (GoError.activityError "timeout" true) (by decide) rfl
    (Or.inr ⟨rfl, { Count := 0, Condition := "" }, rfl, by decide⟩)
  ⟨h.1, h.2.1⟩

/-- Counterexample to C10 as stated: the activity fails with a retriable error and the
lookup of the error-repeat policy fails; `Eval` returns `EvalFail` with the error of the
lookup, and the task status is still `TaskStatusReady`, not `TaskStatusFailed`. -/
theorem Eval_lookup_failure_not_Failed :
    (exCtx TaskStatusReady [] []).status ≠ TaskStatusSkipped ∧
    exLookupFailEnv.EvalActivity = (false, some (GoError.activityError "timeout" true)) ∧
    (GoError.activityError "timeout" true).isRetriable = true ∧
    exLookupFailEnv.GetRepeatData RepeatKey.ErrorRepeatData =
      Except.error (GoError.otherError "storage") ∧
    (Eval exLookupFailEnv (exCtx TaskStatusReady [] [])).1 =
      (EvalFail, some (GoError.otherError "storage")) ∧
    (Eval exLookupFailEnv (exCtx TaskStatusReady [] [])).2.status = TaskStatusReady ∧
    (Eval exLookupFailEnv (exCtx TaskStatusReady [] [])).2.status ≠ TaskStatusFailed := by
  decide

/-- C10, amended: for a task context whose status is not `TaskStatusSkipped`, when the
activity evaluation returns a retriable error and the lookup of the error-repeat policy
fails with error `rerr`, `Eval` returns `EvalFail` carrying `rerr`, the error of the
lookup; it makes no `SetStatus` call (the calls made are `EvalActivity` and
`GetRepeatData`), so the task status after the call is the status before it. -/
theorem Eval_lookup_failure (env : Env) (ctx : TaskContext) (done : Bool) (err rerr : GoError)
    (hs : ctx.status ≠ TaskStatusSkipped)
    (hact : env.EvalActivity = (done, some err))
    (hre : err.isRetriable = true)
    (hget : env.GetRepeatData RepeatKey.ErrorRepeatData = Except.error rerr) :
    (Eval env ctx).1 = (EvalFail, some rerr) ∧
    (Eval env ctx).2.status = ctx.status ∧
    (Eval env ctx).2.calls =
      ctx.calls ++ [Call.EvalActivity, Call.GetRepeatData RepeatKey.ErrorRepeatData] := by
  simp [Eval, hs, hact, hre, hget]

/-- An example for the amended C10. -/
theorem Eval_lookup_failure_witness :
    (Eval exLookupFailEnv (exCtx TaskStatusEntered [] [])).1 =
      (EvalFail, some (GoError.otherError "storage")) ∧
    (Eval exLookupFailEnv (exCtx TaskStatusEntered [] [])).2.status = TaskStatusEntered :=
  have h := Eval_lookup_failure exLookupFailEnv (exCtx TaskStatusEntered [] []) false
    (GoError.activityError "timeout" true) (GoError.otherError "storage") (by decide) rfl rfl rfl
  ⟨h.1, h.2.1⟩

/-- C11: for a task context whose status is `TaskStatusSkipped`, `Eval` returns
`(EvalSkip, nil)`; it makes no call at all (so none of `EvalActivity`, `GetRepeatData`,
`DoRepeat`, `EvaluateExpression`), and the task status is still `TaskStatusSkipped`. -/
theorem Eval_skipped (env : Env) (ctx : TaskContext) (hs : ctx.status = TaskStatusSkipped) :
    (Eval env ctx).1 = (EvalSkip, none) ∧
    (Eval env ctx).2.calls = ctx.calls ∧
    (Eval env ctx).2.status = TaskStatusSkipped := by
  simp [Eval, hs]

/-- An example for C11: the activity would fail, but it is not evaluated. -/
theorem Eval_skipped_witness :
    (Eval exRetriableEnv (exCtx TaskStatusSkipped [1] [])).1 = (EvalSkip, none) ∧
    (Eval exRetriableEnv (exCtx TaskStatusSkipped [1] [])).2.calls = [] :=
  have h := Eval_skipped exRetriableEnv (exCtx TaskStatusSkipped [1] []) rfl
  ⟨h.1, h.2.1⟩

/-- C12: for a task context whose status is not `TaskStatusSkipped` and whose activity
evaluation returns `done = false` without error, `Eval` returns `(EvalWait, nil)`; the
only call it makes is `EvalActivity` (no repeat policy is consulted, no status is set),
and the task status after the call is the status before it. -/
theorem Eval_not_done_waits (env : Env) (ctx : TaskContext)
    (hs : ctx.status ≠ TaskStatusSkipped)
    (hact : env.EvalActivity = (false, none)) :
    (Eval env ctx).1 = (EvalWait, none) ∧
    (Eval env ctx).2.calls = ctx.calls ++ [Call.EvalActivity] ∧
    (Eval env ctx).2.status = ctx.status := by
  simp [Eval, hs, hact, TaskContext.record]

/-- An example for C12. -/
theorem Eval_not_done_waits_witness :
    (Eval exWaitEnv (exCtx TaskStatusReady [] [])).1 = (EvalWait, none) ∧
    (Eval exWaitEnv (exCtx TaskStatusReady [] [])).2.status = TaskStatusReady :=
  have h := Eval_not_done_waits exWaitEnv (exCtx TaskStatusReady [] []) (by decide) rfl
  ⟨h.1, h.2.2⟩

/-- C13: for a task context whose status is not `TaskStatusSkipped` and fixed
`GetRepeatData`, `DoRepeat` and `EvaluateExpression`, `PostEval` with `PostEvalActivity`
returning the error `e` (nil or not) gives the same result, the same returned error and
the same task status and link statuses as `Eval` with `EvalActivity` returning
`(true, e)`; the calls made after the first one are the same.  In particular, with no
error and a condition-repeat policy whose condition is empty, both return
`(EvalDone, nil)`. -/
theorem PostEval_agrees_with_Eval (env : Env) (ctx : TaskContext) (e : Option GoError)
    (hs : ctx.status ≠ TaskStatusSkipped)
    (hact : env.EvalActivity = (true, e))
    (hpost : env.PostEvalActivity = e) :
    (PostEval env ctx).1 = (Eval env ctx).1 ∧
    (PostEval env ctx).2.status = (Eval env ctx).2.status ∧
    (PostEval env ctx).2.linkStatus = (Eval env ctx).2.linkStatus ∧
    (∃ later, (PostEval env ctx).2.calls = ctx.calls ++ Call.PostEvalActivity :: later ∧
      (Eval env ctx).2.calls = ctx.calls ++ Call.EvalActivity :: later) ∧
    (e = none → ∀ repeatData,
      env.GetRepeatData RepeatKey.OnCondRepeatData = Except.ok repeatData →
      repeatData.Condition = "" →
      (PostEval env ctx).1 = (EvalDone, none) ∧ (Eval env ctx).1 = (EvalDone, none)) := by
  cases e with
  | none =>
    cases hget : env.GetRepeatData RepeatKey.OnCondRepeatData with
    | error rerr =>
      refine ⟨?_, ?_, ?_, ⟨[Call.GetRepeatData RepeatKey.OnCondRepeatData], ?_, ?_⟩, ?_⟩ <;>
        simp [PostEval, Eval, hs, hact, hpost, hget, TaskContext.record]
    | ok repeatData =>
      by_cases hc : repeatData.Condition.length > 0
      · refine ⟨?_, ?_, ?_, ⟨[Call.GetRepeatData RepeatKey.OnCondRepeatData,
          Call.EvaluateExpression repeatData], ?_, ?_⟩, ?_⟩
        · simp [PostEval, Eval, hs, hact, hpost, hget, hc]
        · simp [PostEval, Eval, hs, hact, hpost, hget, hc, TaskContext.record]
        · simp [PostEval, Eval, hs, hact, hpost, hget, hc, TaskContext.record]
        · simp [PostEval, Eval, hs, hact, hpost, hget, hc, TaskContext.record]
        · simp [PostEval, Eval, hs, hact, hpost, hget, hc, TaskContext.record]
        · intro _ rd hrd hempty
          cases hrd
          rw [hempty] at hc
          exact absurd hc (by decide)
      · refine ⟨?_, ?_, ?_, ⟨[Call.GetRepeatData RepeatKey.OnCondRepeatData], ?_, ?_⟩, ?_⟩ <;>
          simp [PostEval, Eval, hs, hact, hpost, hget, hc, TaskContext.record]
  | some err =>
    by_cases hre : err.isRetriable = true
    · cases hget : env.GetRepeatData RepeatKey.ErrorRepeatData with
      | error rerr =>
        refine ⟨?_, ?_, ?_, ⟨[Call.GetRepeatData RepeatKey.ErrorRepeatData], ?_, ?_⟩, ?_⟩ <;>
          simp [PostEval, Eval, hs, hact, hpost, hget, hre, TaskContext.record]
      | ok repeatData =>
        by_cases hc : repeatData.Count > 0
        · refine ⟨?_, ?_, ?_, ⟨[Call.GetRepeatData RepeatKey.ErrorRepeatData,
            Call.DoRepeat repeatData RepeatKey.ErrorRepeatData], ?_, ?_⟩, ?_⟩ <;>
            simp [PostEval, Eval, hs, hact, hpost, hget, hre, hc, TaskContext.record]
        · refine ⟨?_, ?_, ?_, ⟨[Call.GetRepeatData RepeatKey.ErrorRepeatData,
            Call.SetStatus TaskStatusFailed], ?_, ?_⟩, ?_⟩ <;>
            simp [PostEval, Eval, hs, hact, hpost, hget, hre, hc, TaskContext.record,
              TaskContext.SetStatus]
    · refine ⟨?_, ?_, ?_, ⟨[Call.SetStatus TaskStatusFailed], ?_, ?_⟩, ?_⟩ <;>
        simp [PostEval, Eval, hs, hact, hpost, hre, TaskContext.record, TaskContext.SetStatus]

/-- An example for C13: no error and no condition-repeat policy. -/
theorem PostEval_agrees_with_Eval_witness :
    (PostEval exEnv (exCtx TaskStatusReady [] [])).1 = (EvalDone, none) ∧
    (Eval exEnv (exCtx TaskStatusReady [] [])).1 = (EvalDone, none) :=
  (PostEval_agrees_with_Eval exEnv (exCtx TaskStatusReady [] []) none (by decide) rfl rfl).2.2.2.2
    rfl { Count := 0, Condition := "" } rfl rfl

/-! ## Further lemmas on Done -/

/-- The loop of `Done` over `pre ++ l`, when it ends without error on `pre`, goes on over
`l` from the state reached after `pre`. -/
theorem doneLoop_append_ok (env : Env) (pre l : List Nat) (st : DoneLoopState)
    (h : (doneLoop env pre st).1 = none) :
    doneLoop env (pre ++ l) st = doneLoop env l (doneLoop env pre st).2 := by
  induction pre generalizing st with
  | nil => rfl
  | cons i rest ih =>
    rw [List.cons_append]
    cases hT : (st.ctx.linkOf i).Type_ with
    | LtError =>
      rw [doneLoop_cons_error env i rest st hT] at h ⊢
      rw [doneLoop_cons_error env i (rest ++ l) st hT]
      exact ih st h
    | LtOtherwise =>
      rw [doneLoop_cons_otherwise env i rest st hT] at h ⊢
      rw [doneLoop_cons_otherwise env i (rest ++ l) st hT]
      exact ih _ h
    | LtNormal =>
      rw [doneLoop_cons_normal env i rest st hT] at h ⊢
      rw [doneLoop_cons_normal env i (rest ++ l) st hT]
      exact ih _ h
    | LtExpression =>
      cases hev : env.EvalLink (st.ctx.linkOf i) with
      | error err =>
        rw [doneLoop_cons_expression_error env i rest st err hT hev] at h
        cases h
      | ok follow =>
        rw [doneLoop_cons_expression_ok env i rest st follow hT hev] at h ⊢
        rw [doneLoop_cons_expression_ok env i (rest ++ l) st follow hT hev]
        exact ih _ h

/-- The calls made by the loop of `Done` when every evaluation succeeds: they extend the
record, and the `EvalLink` calls among them are one per expression link, in order. -/
theorem doneLoop_success_calls (env : Env) (lk : Nat → Link) (l : List Nat)
    (st : DoneLoopState) (hlk : st.ctx.linkOf = lk)
    (hok : ∀ inst ∈ l, (lk inst).Type_ = LtExpression →
      ∃ b, env.EvalLink (lk inst) = Except.ok b) :
    ∃ made, (doneLoop env l st).2.ctx.calls = st.ctx.calls ++ made ∧
      made.filter Call.isEvalLink =
        (l.filter (fun i => decide ((lk i).Type_ = LtExpression))).map
          (fun i => Call.EvalLink (lk i)) := by
  induction l generalizing st with
  | nil => exact ⟨[], by simp [doneLoop]⟩
  | cons inst rest ih =>
    have hok' : ∀ i ∈ rest, (lk i).Type_ = LtExpression →
        ∃ b, env.EvalLink (lk i) = Except.ok b :=
      fun i hi => hok i (List.mem_cons_of_mem _ hi)
    cases hT : (lk inst).Type_ with
    | LtError =>
      have hT' : (st.ctx.linkOf inst).Type_ = LtError := by rw [hlk]; exact hT
      rw [doneLoop_cons_error env inst rest st hT']
      obtain ⟨made, h1, h2⟩ := ih st hlk hok'
      exact ⟨made, h1, by rw [h2]; simp [hT]⟩
    | LtOtherwise =>
      have hT' : (st.ctx.linkOf inst).Type_ = LtOtherwise := by rw [hlk]; exact hT
      rw [doneLoop_cons_otherwise env inst rest st hT']
      obtain ⟨made, h1, h2⟩ := ih { st with otherwiseLinkInst := some inst } hlk hok'
      exact ⟨made, h1, by rw [h2]; simp [hT]⟩
    | LtNormal =>
      have hT' : (st.ctx.linkOf inst).Type_ = LtNormal := by rw [hlk]; exact hT
      rw [doneLoop_cons_normal env inst rest st hT']
      obtain ⟨made, h1, h2⟩ :=
        ih (doneResolve st inst true) ((doneResolve_linkOf _ _ _).trans hlk) hok'
      refine ⟨Call.SetLinkStatus inst LinkStatusTrue :: made, ?_, ?_⟩
      · rw [h1]; simp [doneResolve]
      · simp [h2, hT, Call.isEvalLink]
    | LtExpression =>
      have hT' : (st.ctx.linkOf inst).Type_ = LtExpression := by rw [hlk]; exact hT
      obtain ⟨b, hb⟩ := hok inst (List.mem_cons_self _ _) hT
      have hb' : env.EvalLink (st.ctx.linkOf inst) = Except.ok b := by rw [hlk]; exact hb
      rw [doneLoop_cons_expression_ok env inst rest st b hT' hb']
      obtain ⟨made, h1, h2⟩ :=
        ih (doneResolve { st with ctx := st.ctx.record (Call.EvalLink (st.ctx.linkOf inst)) }
          inst b) ((doneResolve_linkOf _ _ _).trans hlk) hok'
      refine ⟨Call.EvalLink (lk inst) :: Call.SetLinkStatus inst (statusOfFollow b) :: made,
        ?_, ?_⟩
      · rw [h1]; cases b <;> simp [doneResolve, statusOfFollow, hlk]
      · simp [h2, hT, Call.isEvalLink]

/-- Whatever happens, the loop of `Done` leaves a link status as it was or writes
`LinkStatusTrue` or `LinkStatusFalse`. -/
theorem doneLoop_writes_resolved (env : Env) (l : List Nat) (st : DoneLoopState) (j : Nat) :
    (doneLoop env l st).2.ctx.linkStatus j = st.ctx.linkStatus j ∨
    (doneLoop env l st).2.ctx.linkStatus j = LinkStatusTrue ∨
    (doneLoop env l st).2.ctx.linkStatus j = LinkStatusFalse := by
  induction l generalizing st with
  | nil => exact Or.inl rfl
  | cons inst rest ih =>
    have step : ∀ (st1 : DoneLoopState) (b : Bool),
        st1.ctx.linkStatus = st.ctx.linkStatus →
        (doneLoop env rest (doneResolve st1 inst b)).2.ctx.linkStatus j = st.ctx.linkStatus j ∨
        (doneLoop env rest (doneResolve st1 inst b)).2.ctx.linkStatus j = LinkStatusTrue ∨
        (doneLoop env rest (doneResolve st1 inst b)).2.ctx.linkStatus j = LinkStatusFalse := by
      intro st1 b h1
      rcases ih (doneResolve st1 inst b) with h | h | h
      · rw [h, doneResolve_linkStatus, h1]
        by_cases hj : j = inst
        · cases b <;> simp [hj, statusOfFollow]
        · simp [hj]
      · exact Or.inr (Or.inl h)
      · exact Or.inr (Or.inr h)
    cases hT : (st.ctx.linkOf inst).Type_ with
    | LtError => rw [doneLoop_cons_error env inst rest st hT]; exact ih st
    | LtOtherwise =>
      rw [doneLoop_cons_otherwise env inst rest st hT]
      exact ih { st with otherwiseLinkInst := some inst }
    | LtNormal =>
      rw [doneLoop_cons_normal env inst rest st hT]
      exact step st true rfl
    | LtExpression =>
      cases hev : env.EvalLink (st.ctx.linkOf inst) with
      | error err =>
        rw [doneLoop_cons_expression_error env inst rest st err hT hev]
        exact Or.inl rfl
      | ok follow =>
        rw [doneLoop_cons_expression_ok env inst rest st follow hT hev]
        exact step _ follow rfl

/-- With at least one outgoing link instance `Done` never asks to notify the flow. -/
theorem Done_notifyFlow (env : Env) (ctx : TaskContext) (hK : 1 ≤ ctx.toLinks.length) :
    (Done env ctx).1.notifyFlow = false := by
  have hK' : ctx.toLinks.length > 0 := hK
  simp only [Done, hK', if_true]
  generalize doneLoop env ctx.toLinks _ = r
  rcases r with ⟨_ | e, st⟩
  · rcases st with ⟨c, t, _ | _, _ | o⟩ <;> rfl
  · rfl

/-- The result of `Done` when its loop ends on an error of `EvalLink`. -/
theorem Done_eq_error (env : Env) (ctx : TaskContext) (e : GoError)
    (hK : 1 ≤ ctx.toLinks.length)
    (h1 : (doneLoop env ctx.toLinks (doneStart ctx)).1 = some e) :
    Done env ctx =
      ({ notifyFlow := false, taskEntries := none, err := some e },
        (doneLoop env ctx.toLinks (doneStart ctx)).2.ctx) := by
  have hK' : ctx.toLinks.length > 0 := hK
  simp only [Done, hK', if_true]
  simp only [doneStart] at h1 ⊢
  generalize doneLoop env ctx.toLinks _ = r at h1 ⊢
  rcases r with ⟨e', st⟩
  simp only at h1
  subst h1
  rfl

/-- The context after `Done`, with at least one outgoing link instance, is the one
reached by the loop, possibly with one more link instance set `LinkStatusTrue`. -/
theorem Done_ctx_cases (env : Env) (ctx : TaskContext) (hK : 1 ≤ ctx.toLinks.length) :
    (Done env ctx).2 = (doneLoop env ctx.toLinks (doneStart ctx)).2.ctx ∨
    ∃ ow, (Done env ctx).2 =
      (doneLoop env ctx.toLinks (doneStart ctx)).2.ctx.SetLinkStatus ow LinkStatusTrue := by
  have hK' : ctx.toLinks.length > 0 := hK
  simp only [Done, hK', if_true, doneStart]
  generalize doneLoop env ctx.toLinks _ = r
  rcases r with ⟨_ | e, st⟩
  · rcases st with ⟨c, t, _ | _, _ | o⟩
    · exact Or.inl rfl
    · exact Or.inr ⟨o, rfl⟩
    · exact Or.inl rfl
    · exact Or.inl rfl
  · exact Or.inl rfl

/-- The result of `Done` when `EvalLink` fails on the expression link instance `inst`
and succeeds on every expression link before it: the loop stops right after that call
of `EvalLink`, in the state reached on the links before `inst`. -/
theorem Done_at_failing_link (env : Env) (ctx : TaskContext) (pre post : List Nat)
    (inst : Nat) (e : GoError)
    (hlinks : ctx.toLinks = pre ++ inst :: post)
    (hT : (ctx.linkOf inst).Type_ = LtExpression)
    (hfail : env.EvalLink (ctx.linkOf inst) = Except.error e)
    (hpre : ∀ i ∈ pre, (ctx.linkOf i).Type_ = LtExpression →
      ∃ b, env.EvalLink (ctx.linkOf i) = Except.ok b) :
    Done env ctx =
      ({ notifyFlow := false, taskEntries := none, err := some e },
        (doneLoop env pre (doneStart ctx)).2.ctx.record (Call.EvalLink (ctx.linkOf inst))) := by
  have hK : 1 ≤ ctx.toLinks.length := by rw [hlinks]; simp; omega
  obtain ⟨h1, _⟩ := doneLoop_success env ctx.linkOf pre (doneStart ctx) rfl hpre
  have hLk : (doneLoop env pre (doneStart ctx)).2.ctx.linkOf = ctx.linkOf :=
    doneLoop_linkOf env pre (doneStart ctx)
  have hloop : doneLoop env ctx.toLinks (doneStart ctx) =
      (some e, { (doneLoop env pre (doneStart ctx)).2 with
        ctx := (doneLoop env pre (doneStart ctx)).2.ctx.record
          (Call.EvalLink (ctx.linkOf inst)) }) := by
    rw [hlinks, doneLoop_append_ok env pre (inst :: post) (doneStart ctx) h1,
      doneLoop_cons_expression_error env inst post _ e (by rw [hLk]; exact hT)
        (by rw [hLk]; exact hfail), hLk]
  rw [Done_eq_error env ctx e hK (by rw [hloop]), hloop]

/-! ## Further theorems on Done -/

/-- C14: for a task with no outgoing link instance, `Done` sets the task status to
`TaskStatusDone` and returns `notifyFlow = true` with nil entries and a nil error; the
only call it makes is `SetStatus(TaskStatusDone)`, so `EvalLink` is not called.
Conversely, `Done` returns `notifyFlow = true` only when the task has no outgoing link
instance. -/
theorem Done_terminal (env : Env) (ctx : TaskContext) :
    (ctx.toLinks = [] →
      (Done env ctx).1 = { notifyFlow := true, taskEntries := none, err := none } ∧
      (Done env ctx).2.status = TaskStatusDone ∧
      (Done env ctx).2.calls = ctx.calls ++ [Call.SetStatus TaskStatusDone]) ∧
    ((Done env ctx).1.notifyFlow = true → ctx.toLinks = []) := by
  constructor
  · intro h0
    simp [Done, h0]
  · intro hn
    by_contra hne
    have hK : 1 ≤ ctx.toLinks.length := List.length_pos.mpr hne
    rw [Done_notifyFlow env ctx hK] at hn
    cases hn

/-- An example for C14: a task with one incoming and no outgoing link instance. -/
theorem Done_terminal_witness :
    (Done exLinkFailEnv (exCtx TaskStatusReady [2] [])).1 =
      { notifyFlow := true, taskEntries := none, err := none } ∧
    (Done exLinkFailEnv (exCtx TaskStatusReady [2] [])).2.status = TaskStatusDone ∧
    (Done exLinkFailEnv (exCtx TaskStatusReady [2] [])).2.calls =
      [Call.SetStatus TaskStatusDone] :=
  (Done_terminal exLinkFailEnv (exCtx TaskStatusReady [2] [])).1 rfl

/-- C15: when the outgoing link instances are `pre ++ inst :: post`, `inst` is an
expression link on which `EvalLink` fails with error `e`, and `EvalLink` succeeds on every
expression link of `pre`, `Done` returns `notifyFlow = false`, nil entries and the error
`e`; the failing call of `EvalLink` is the last call that `Done` makes, and the `EvalLink`
calls made are those of the expression links of `pre` followed by the one of `inst`, so
that `EvalLink` is called on no link of `post`. -/
theorem Done_evalLink_error (env : Env) (ctx : TaskContext) (pre post : List Nat)
    (inst : Nat) (e : GoError)
    (hlinks : ctx.toLinks = pre ++ inst :: post)
    (hT : (ctx.linkOf inst).Type_ = LtExpression)
    (hfail : env.EvalLink (ctx.linkOf inst) = Except.error e)
    (hpre : ∀ i ∈ pre, (ctx.linkOf i).Type_ = LtExpression →
      ∃ b, env.EvalLink (ctx.linkOf i) = Except.ok b) :
    (Done env ctx).1 = { notifyFlow := false, taskEntries := none, err := some e } ∧
    ∃ made, (Done env ctx).2.calls = ctx.calls ++ made ∧
      made.getLast? = some (Call.EvalLink (ctx.linkOf inst)) ∧
      made.filter Call.isEvalLink =
        ((pre ++ [inst]).filter (fun i => decide ((ctx.linkOf i).Type_ = LtExpression))).map
          (fun i => Call.EvalLink (ctx.linkOf i)) := by
  rw [Done_at_failing_link env ctx pre post inst e hlinks hT hfail hpre]
  obtain ⟨made, h1, h2⟩ := doneLoop_success_calls env ctx.linkOf pre (doneStart ctx) rfl hpre
  refine ⟨rfl, Call.SetStatus TaskStatusDone :: (made ++ [Call.EvalLink (ctx.linkOf inst)]),
    ?_, ?_, ?_⟩
  · rw [record_calls, h1]; simp [doneStart]
  · rw [List.getLast?_cons, List.getLast?_concat]; rfl
  · simp [h2, hT, Call.isEvalLink]

/-- An example for C15: `EvalLink` fails on the third of five outgoing links. -/
theorem Done_evalLink_error_witness :
    (Done exLinkFailEnv (exCtx TaskStatusReady [] [4, 12, 13, 14, 21])).1 =
      { notifyFlow := false, taskEntries := none,
        err := some (GoError.otherError "bad expression") } :=
  (Done_evalLink_error exLinkFailEnv (exCtx TaskStatusReady [] [4, 12, 13, 14, 21])
    [4, 12] [14, 21] 13 (GoError.otherError "bad expression") rfl (by decide) rfl
    (fun i hi _ => by
      have h : i = 4 ∨ i = 12 := by simpa using hi
      rcases h with rfl | rfl
      · exact ⟨true, rfl⟩
      · exact ⟨true, rfl⟩)).1

/-! ## Link statuses across the propagation operations -/

/-- The link statuses after `Skip`: the outgoing link instances are
`LinkStatusSkipped`, the others are as before. -/
theorem Skip_linkStatus (ctx : TaskContext) (j : Nat) :
    (Skip ctx).2.linkStatus j =
      if j ∈ ctx.toLinks then LinkStatusSkipped else ctx.linkStatus j := by
  by_cases hK : ctx.toLinks.length > 0
  · obtain ⟨_, _, _, _, h5⟩ :=
      skipLoop_spec ctx.linkOf ctx.toLinks (ctx.SetStatus TaskStatusSkipped) [] rfl
    simp only [Skip, hK, if_true]
    rw [h5 j]; rfl
  · have h0 : ctx.toLinks = [] := List.length_eq_zero.mp (by omega)
    simp [Skip, h0]

/-- The link statuses after `Error`: each is as before, or `LinkStatusTrue`, or
`LinkStatusFalse`. -/
theorem Error_linkStatus_cases (ctx : TaskContext) (err : GoError) (j : Nat) :
    (Error ctx err).2.linkStatus j = ctx.linkStatus j ∨
    (Error ctx err).2.linkStatus j = LinkStatusTrue ∨
    (Error ctx err).2.linkStatus j = LinkStatusFalse := by
  by_cases hK : ctx.toLinks.length > 0
  · by_cases hH : errorHandled ctx ctx.toLinks = true
    · obtain ⟨_, _, _, h5⟩ := errorLoop_spec ctx.linkOf ctx.toLinks ctx [] rfl
      simp only [Error, hK, hH, if_true]
      rw [h5 j]
      by_cases hj : j ∈ ctx.toLinks
      · by_cases hT : (ctx.linkOf j).Type_ = LtError
        · simp [hj, hT]
        · simp [hj, hT]
      · simp [hj]
    · simp [Error, hK, hH]
  · simp [Error, hK]

/-- The link statuses after `Done`: each is as before, or `LinkStatusTrue`, or
`LinkStatusFalse`, also when `Done` returns an error. -/
theorem Done_linkStatus_cases (env : Env) (ctx : TaskContext) (j : Nat) :
    (Done env ctx).2.linkStatus j = ctx.linkStatus j ∨
    (Done env ctx).2.linkStatus j = LinkStatusTrue ∨
    (Done env ctx).2.linkStatus j = LinkStatusFalse := by
  by_cases hK : ctx.toLinks.length > 0
  · have hloop := doneLoop_writes_resolved env ctx.toLinks (doneStart ctx) j
    rcases Done_ctx_cases env ctx hK with h | ⟨ow, h⟩
    · rw [h]; exact hloop
    · rw [h, SetLinkStatus_linkStatus]
      by_cases hj : j = ow
      · simp [hj]
      · simp only [hj, if_false]; exact hloop
  · have h0 : ctx.toLinks = [] := List.length_eq_zero.mp (by omega)
    simp [Done, h0]

/-- Counterexample to C16 as stated: link statuses are not write-once.  An outgoing link
instance that is already `LinkStatusTrue` is `LinkStatusSkipped` after `Skip`; a normal
one that is already `LinkStatusFalse` is `LinkStatusTrue` after `Done`; and a normal one
that is already `LinkStatusSkipped` is `LinkStatusFalse` after a handled `Error`. -/
theorem link_status_overwritten :
    (exCtx TaskStatusReady [] [2]).linkStatus 2 = LinkStatusTrue ∧
    (Skip (exCtx TaskStatusReady [] [2])).2.linkStatus 2 = LinkStatusSkipped ∧
    (exCtx TaskStatusReady [] [1]).linkStatus 1 = LinkStatusFalse ∧
    (Done exEnv (exCtx TaskStatusReady [] [1])).2.linkStatus 1 = LinkStatusTrue ∧
    (exCtx TaskStatusFailed [] [30, 3]).linkStatus 3 = LinkStatusSkipped ∧
    (Error (exCtx TaskStatusFailed [] [30, 3]) (GoError.otherError "boom")).2.linkStatus 3 =
      LinkStatusFalse := by
  decide

/-- C16, amended: across `Done`, `Skip` and `Error` a link status never goes back to
pending.  For each of the three operations and every link instance, the status after the
call equals the status before it or is a resolved value (`LinkStatusFalse`,
`LinkStatusTrue` or `LinkStatusSkipped`); hence a status that is resolved before the call
is resolved after it. -/
theorem link_status_stays_resolved (env : Env) (ctx : TaskContext) (err : GoError) (j : Nat) :
    (((Done env ctx).2.linkStatus j = ctx.linkStatus j ∨
        ((Done env ctx).2.linkStatus j).isResolved = true) ∧
      ((Skip ctx).2.linkStatus j = ctx.linkStatus j ∨
        ((Skip ctx).2.linkStatus j).isResolved = true) ∧
      ((Error ctx err).2.linkStatus j = ctx.linkStatus j ∨
        ((Error ctx err).2.linkStatus j).isResolved = true)) ∧
    ((ctx.linkStatus j).isResolved = true →
      ((Done env ctx).2.linkStatus j).isResolved = true ∧
      ((Skip ctx).2.linkStatus j).isResolved = true ∧
      ((Error ctx err).2.linkStatus j).isResolved = true) := by
  have hD : (Done env ctx).2.linkStatus j = ctx.linkStatus j ∨
      ((Done env ctx).2.linkStatus j).isResolved = true := by
    rcases Done_linkStatus_cases env ctx j with h | h | h
    · exact Or.inl h
    · exact Or.inr (by rw [h]; rfl)
    · exact Or.inr (by rw [h]; rfl)
  have hS : (Skip ctx).2.linkStatus j = ctx.linkStatus j ∨
      ((Skip ctx).2.linkStatus j).isResolved = true := by
    rw [Skip_linkStatus]
    by_cases hj : j ∈ ctx.toLinks
    · simp only [hj, if_true]; exact Or.inr rfl
    · simp [hj]
  have hE : (Error ctx err).2.linkStatus j = ctx.linkStatus j ∨
      ((Error ctx err).2.linkStatus j).isResolved = true := by
    rcases Error_linkStatus_cases ctx err j with h | h | h
    · exact Or.inl h
    · exact Or.inr (by rw [h]; rfl)
    · exact Or.inr (by rw [h]; rfl)
  refine ⟨⟨hD, hS, hE⟩, fun hres => ⟨?_, ?_, ?_⟩⟩
  · rcases hD with h | h
    · rw [h]; exact hres
    · exact h
  · rcases hS with h | h
    · rw [h]; exact hres
    · exact h
  · rcases hE with h | h
    · rw [h]; exact hres
    · exact h

/-- An example for the amended C16: a link instance that is `LinkStatusTrue` before the
three operations is resolved after each of them. -/
theorem link_status_stays_resolved_witness :
    ((Done exEnv (exCtx TaskStatusReady [] [2, 30])).2.linkStatus 2).isResolved = true ∧
    ((Skip (exCtx TaskStatusReady [] [2, 30])).2.linkStatus 2).isResolved = true ∧
    ((Error (exCtx TaskStatusReady [] [2, 30]) (GoError.otherError "boom")).2.linkStatus
      2).isResolved = true :=
  (link_status_stays_resolved exEnv (exCtx TaskStatusReady [] [2, 30])
    (GoError.otherError "boom") 2).2 (by decide)

/-- C18: `Skip` propagates through a join.  For a task `P` and a task `T` whose incoming
link instances, at least one, are all outgoing link instances of `P` (so that `P` has at
least one outgoing link instance): after `Skip` on `P`, `Enter` on `T` (which sees the link
statuses left by `Skip`) returns `EnterSkip` and leaves the status of `T`
`TaskStatusSkipped`, whatever the link types and the link statuses before. -/
theorem Skip_then_Enter_skips (ctxP ctxT : TaskContext)
    (hN : ctxT.fromLinks ≠ [])
    (hsub : ∀ inst ∈ ctxT.fromLinks, inst ∈ ctxP.toLinks) :
    (Enter { ctxT with linkStatus := (Skip ctxP).2.linkStatus }).1 = EnterSkip ∧
    (Enter { ctxT with linkStatus := (Skip ctxP).2.linkStatus }).2.status =
      TaskStatusSkipped := by
  have hsk : ∀ inst ∈ ctxT.fromLinks, (Skip ctxP).2.linkStatus inst = LinkStatusSkipped := by
    intro inst hi
    rw [Skip_linkStatus]
    simp [hsub inst hi]
  have hne : ¬ ctxT.fromLinks.length = 0 := fun h => hN (List.length_eq_zero.mp h)
  have hany : ctxT.fromLinks.any
      (fun inst => decide ((Skip ctxP).2.linkStatus inst = LinkStatusTrue)) = false := by
    rw [List.any_eq_false]
    intro inst hi
    simp [hsk inst hi]
  have hflags : enterFlags
      (({ ctxT with linkStatus := (Skip ctxP).2.linkStatus } : TaskContext).SetStatus
        TaskStatusEntered) = (true, true) := by
    simp only [enterFlags, SetStatus_fromLinks, hne, if_false]
    rw [enterLoop_resolved _ _ _ _ (by
      intro inst hi
      show (Skip ctxP).2.linkStatus inst ≠ LinkStatusPending
      rw [hsk inst hi]; decide)]
    show (true, true && !(ctxT.fromLinks.any
      (fun inst => decide ((Skip ctxP).2.linkStatus inst = LinkStatusTrue)))) = (true, true)
    rw [hany]; rfl
  simp [Enter, hflags]

/-- An example for C18: `P` has outgoing link instances of three types, one of them
already `LinkStatusTrue`, and `T` joins two of them. -/
theorem Skip_then_Enter_skips_witness :
    (Enter { exCtx TaskStatusNotStarted [2, 21] [] with
      linkStatus := (Skip (exCtx TaskStatusReady [] [2, 10, 21])).2.linkStatus }).1 =
        EnterSkip :=
  (Skip_then_Enter_skips (exCtx TaskStatusReady [] [2, 10, 21])
    (exCtx TaskStatusNotStarted [2, 21] []) (by decide) (by decide)).1

/-! ## The end-to-end scenario -/

/-- C17: the scenario of the specification.  A task has the incoming link instances
`l1`, `LinkStatusTrue`, and `l2`, `LinkStatusFalse`: `Enter` returns `EnterEval` and
leaves the status `TaskStatusReady`.  Then `Eval`, with the activity returning
`(true, nil)` and a condition-repeat policy with an empty condition, returns
`(EvalDone, nil)`.  Then `Done`, with the outgoing link instances `a`, a normal link, and
`b`, an expression link on which `EvalLink` returns false, sets `a` to `LinkStatusTrue`
and `b` to `LinkStatusFalse`, returns `notifyFlow = false`, a nil error and exactly the
two entries naming the target of `a` and then the target of `b`, and leaves the status
`TaskStatusDone`. -/
theorem scenario_Enter_Eval_Done (env : Env) (ctx : TaskContext) (l1 l2 a b : Nat)
    (repeatData : RepeatData)
    (hfrom : ctx.fromLinks = [l1, l2])
    (h1 : ctx.linkStatus l1 = LinkStatusTrue)
    (h2 : ctx.linkStatus l2 = LinkStatusFalse)
    (hact : env.EvalActivity = (true, none))
    (hget : env.GetRepeatData RepeatKey.OnCondRepeatData = Except.ok repeatData)
    (hcond : repeatData.Condition = "")
    (hto : ctx.toLinks = [a, b])
    (ha : (ctx.linkOf a).Type_ = LtNormal)
    (hb : (ctx.linkOf b).Type_ = LtExpression)
    (hev : env.EvalLink (ctx.linkOf b) = Except.ok false) :
    (Enter ctx).1 = EnterEval ∧
    (Enter ctx).2.status = TaskStatusReady ∧
    (Eval env (Enter ctx).2).1 = (EvalDone, none) ∧
    (Done env (Eval env (Enter ctx).2).2).1 =
      { notifyFlow := false,
        taskEntries := some [TaskEntry.mk (ctx.linkOf a).ToTask,
          TaskEntry.mk (ctx.linkOf b).ToTask],
        err := none } ∧
    (Done env (Eval env (Enter ctx).2).2).2.linkStatus a = LinkStatusTrue ∧
    (Done env (Eval env (Enter ctx).2).2).2.linkStatus b = LinkStatusFalse ∧
    (Done env (Eval env (Enter ctx).2).2).2.status = TaskStatusDone := by
  have hab : a ≠ b := by
    intro h; rw [h, hb] at ha; cases ha
  have hlen : ¬ repeatData.Condition.length > 0 := by rw [hcond]; decide
  have hEnter : Enter ctx =
      (EnterEval, (ctx.SetStatus TaskStatusEntered).SetStatus TaskStatusReady) := by
    simp [Enter, enterFlags, enterLoop, hfrom, h1, h2, LinkStatus.toInt]
  have hEval : Eval env ((ctx.SetStatus TaskStatusEntered).SetStatus TaskStatusReady) =
      ((EvalDone, none),
        ((((ctx.SetStatus TaskStatusEntered).SetStatus TaskStatusReady).record
          Call.EvalActivity).record (Call.GetRepeatData RepeatKey.OnCondRepeatData))) := by
    simp [Eval, hact, hget, hlen]
  rw [hEnter]
  simp only [hEval]
  refine ⟨trivial, rfl, trivial, ?_, ?_, ?_, ?_⟩
  · simp [Done, doneLoop, doneResolve, TaskContext.record, TaskContext.SetStatus,
      TaskContext.SetLinkStatus, TaskContext.entryFor, hto, ha, hb, hev]
  · simp [Done, doneLoop, doneResolve, TaskContext.record, TaskContext.SetStatus,
      TaskContext.SetLinkStatus, TaskContext.entryFor, hto, ha, hb, hev, hab]
  · simp [Done, doneLoop, doneResolve, TaskContext.record, TaskContext.SetStatus,
      TaskContext.SetLinkStatus, TaskContext.entryFor, hto, ha, hb, hev]
  · simp [Done, doneLoop, doneResolve, TaskContext.record, TaskContext.SetStatus,
      TaskContext.SetLinkStatus, TaskContext.entryFor, hto, ha, hb, hev]

/-- The scenario of C17 on the example context: incoming link instances 2 and 1, outgoing
link instances 4 (normal) and 11 (expression, evaluates false). -/
theorem scenario_Enter_Eval_Done_witness :
    (Enter (exCtx TaskStatusNotStarted [2, 1] [4, 11])).1 = EnterEval ∧
    (Eval exEnv (Enter (exCtx TaskStatusNotStarted [2, 1] [4, 11])).2).1 = (EvalDone, none) ∧
    (Done exEnv (Eval exEnv (Enter (exCtx TaskStatusNotStarted [2, 1] [4, 11])).2).2).1 =
      { notifyFlow := false,
        taskEntries := some [TaskEntry.mk (Task.mk 4), TaskEntry.mk (Task.mk 11)],
        err := none } :=
  have h := scenario_Enter_Eval_Done exEnv (exCtx TaskStatusNotStarted [2, 1] [4, 11]) 2 1 4 11
    { Count := 0, Condition := "" } rfl rfl rfl rfl rfl rfl rfl rfl rfl rfl
  ⟨h.1, h.2.2.1, h.2.2.2.1⟩

/-! ## Successor entries of Done, and Done on a failing link -/

/-- Counterexample to C19 as stated: a task whose only outgoing link is an error link.
`Done` returns without error and with `notifyFlow = false`, and the list of entries is
empty. -/
theorem Done_only_error_link_no_entry :
    1 ≤ (exCtx TaskStatusReady [] [30]).toLinks.length ∧
    ((exCtx TaskStatusReady [] [30]).linkOf 30).Type_ = LtError ∧
    (Done exEnv (exCtx TaskStatusReady [] [30])).1 =
      { notifyFlow := false, taskEntries := some [], err := none } := by
  decide

/-- C19, amended: for a task with at least one outgoing link instance on which `Done`
returns without error, `Done` returns `notifyFlow = false`; and when at least one outgoing
link is not an error link, the returned entries hold at least one successor task
entry. -/
theorem Done_continues (env : Env) (ctx : TaskContext)
    (hK : 1 ≤ ctx.toLinks.length)
    (herr : (Done env ctx).1.err = none) :
    (Done env ctx).1.notifyFlow = false ∧
    ((∃ inst ∈ ctx.toLinks, (ctx.linkOf inst).Type_ ≠ LtError) →
      ∃ entry more, (Done env ctx).1.taskEntries = some (entry :: more)) := by
  refine ⟨Done_notifyFlow env ctx hK, ?_⟩
  rintro ⟨inst, hi, hT⟩
  rw [Done_err env ctx hK] at herr
  have hok := doneLoop_no_error env ctx.linkOf ctx.toLinks (doneStart ctx) rfl herr
  obtain ⟨h1, h2, h3, h4, _⟩ :=
    doneLoop_success env ctx.linkOf ctx.toLinks (doneStart ctx) rfl hok
  simp only [doneStart, List.nil_append, Bool.false_or, Option.or_none] at h2 h3 h4
  have hnonempty : ∀ (xs ys : List TaskEntry), xs ++ ys ≠ [] →
      ∃ entry more, some (xs ++ ys) = some (entry :: more) := by
    intro xs ys h
    cases hxy : xs ++ ys with
    | nil => exact absurd hxy h
    | cons entry more => exact ⟨entry, more, rfl⟩
  by_cases hNE : ∃ i ∈ ctx.toLinks, (ctx.linkOf i).isNormalOrExpression = true
  · obtain ⟨i, hi', hiNE⟩ := hNE
    have hmem : TaskEntry.mk (ctx.linkOf i).ToTask ∈
        (doneLoop env ctx.toLinks (doneStart ctx)).2.taskEntries := by
      simp only [doneStart]
      rw [h2]
      exact List.mem_map.mpr ⟨i, List.mem_filter.mpr ⟨hi', hiNE⟩, rfl⟩
    have hloopne : (doneLoop env ctx.toLinks (doneStart ctx)).2.taskEntries ≠ [] :=
      List.ne_nil_of_mem hmem
    by_cases hcase : (doneLoop env ctx.toLinks (doneStart ctx)).2.linkFollowed = false ∧
        ∃ ow, (doneLoop env ctx.toLinks (doneStart ctx)).2.otherwiseLinkInst = some ow
    · obtain ⟨hf, ow, how⟩ := hcase
      rw [Done_eq_otherwise env ctx ow hK h1 hf how]
      exact hnonempty _ _ (by simp [hloopne])
    · have hplain : (doneLoop env ctx.toLinks (doneStart ctx)).2.linkFollowed = true ∨
          (doneLoop env ctx.toLinks (doneStart ctx)).2.otherwiseLinkInst = none := by
        by_cases hf : (doneLoop env ctx.toLinks (doneStart ctx)).2.linkFollowed = true
        · exact Or.inl hf
        · right
          cases ho : (doneLoop env ctx.toLinks (doneStart ctx)).2.otherwiseLinkInst with
          | none => rfl
          | some ow => exact absurd ⟨by simpa using hf, ow, ho⟩ hcase
      rw [Done_eq_plain env ctx hK h1 hplain]
      have := hnonempty _ [] (by simpa using hloopne)
      simpa using this
  · have hinstOw : (ctx.linkOf inst).Type_ = LtOtherwise := by
      have hn : ¬ (ctx.linkOf inst).isNormalOrExpression = true := fun h => hNE ⟨inst, hi, h⟩
      cases hTy : (ctx.linkOf inst).Type_ with
      | LtNormal => simp [Link.isNormalOrExpression, hTy] at hn
      | LtExpression => simp [Link.isNormalOrExpression, hTy] at hn
      | LtOtherwise => rfl
      | LtError => exact absurd hTy hT
    have hf : (doneLoop env ctx.toLinks (doneStart ctx)).2.linkFollowed = false := by
      simp only [doneStart]
      rw [h3, List.any_eq_false]
      intro i hi'
      have hn : ¬ (ctx.linkOf i).isNormalOrExpression = true := fun h => hNE ⟨i, hi', h⟩
      simp [hn]
    have hfne : ctx.toLinks.filter (fun i => decide ((ctx.linkOf i).Type_ = LtOtherwise)) ≠ [] :=
      List.ne_nil_of_mem (List.mem_filter.mpr ⟨hi, by simp [hinstOw]⟩)
    obtain ⟨ow, how⟩ : ∃ ow,
        (doneLoop env ctx.toLinks (doneStart ctx)).2.otherwiseLinkInst = some ow := by
      simp only [doneStart]
      rw [h4]
      cases hg : (ctx.toLinks.filter
          (fun i => decide ((ctx.linkOf i).Type_ = LtOtherwise))).getLast? with
      | none => exact absurd (List.getLast?_eq_none_iff.mp hg) hfne
      | some ow => exact ⟨ow, rfl⟩
    rw [Done_eq_otherwise env ctx ow hK h1 hf how]
    exact hnonempty _ _ (by simp)

/-- An example for the amended C19: an error link and an otherwise link; the otherwise
link gives the one entry. -/
theorem Done_continues_witness :
    (Done exEnv (exCtx TaskStatusReady [] [30, 21])).1.notifyFlow = false ∧
    ∃ entry more,
      (Done exEnv (exCtx TaskStatusReady [] [30, 21])).1.taskEntries = some (entry :: more) :=
  have h := Done_continues exEnv (exCtx TaskStatusReady [] [30, 21]) (by decide) (by decide)
  ⟨h.1, h.2 ⟨21, by decide, by decide⟩⟩

/-- Counterexample to C20 as stated: the outgoing link instances are `[40, 13, 40]`, the
same normal link instance before and after the expression link instance 13, on which
`EvalLink` fails.  `Done` returns the error, and the link instance 40, which stands at a
position after the failing one and was pending before the call, is `LinkStatusTrue`
after it: it was written when the loop met it at the first position. -/
theorem Done_repeated_instance_written :
    (exCtx TaskStatusReady [] [40, 13, 40]).toLinks = [40] ++ 13 :: [40] ∧
    ((exCtx TaskStatusReady [] [40, 13, 40]).linkOf 13).Type_ = LtExpression ∧
    exLinkFailEnv.EvalLink ((exCtx TaskStatusReady [] [40, 13, 40]).linkOf 13) =
      Except.error (GoError.otherError "bad expression") ∧
    ((exCtx TaskStatusReady [] [40, 13, 40]).linkOf 40).Type_ = LtNormal ∧
    (Done exLinkFailEnv (exCtx TaskStatusReady [] [40, 13, 40])).1.err =
      some (GoError.otherError "bad expression") ∧
    40 ∈ 13 :: [40] ∧
    (exCtx TaskStatusReady [] [40, 13, 40]).linkStatus 40 = LinkStatusPending ∧
    (Done exLinkFailEnv (exCtx TaskStatusReady [] [40, 13, 40])).2.linkStatus 40 =
      LinkStatusTrue := by
  decide

/-- C20, amended: `Done` is not atomic when `EvalLink` fails.  When the outgoing link
instances are `pre ++ inst :: post`, `inst` is an expression link on which `EvalLink`
fails and `EvalLink` succeeds on every expression link of `pre`: after `Done` has
returned the error, the task status is `TaskStatusDone`; every normal link instance of
`pre` is `LinkStatusTrue` and every expression link instance of `pre` is `LinkStatusTrue`
or `LinkStatusFalse` as `EvalLink` returned; every error link instance, every otherwise
link instance and every link instance that does not occur in `pre` keeps the status it
had; so, when no link instance occurs twice among the outgoing ones, every link instance
at the position of `inst` or later keeps the status it had. -/
theorem Done_not_atomic (env : Env) (ctx : TaskContext) (pre post : List Nat)
    (inst : Nat) (e : GoError)
    (hlinks : ctx.toLinks = pre ++ inst :: post)
    (hT : (ctx.linkOf inst).Type_ = LtExpression)
    (hfail : env.EvalLink (ctx.linkOf inst) = Except.error e)
    (hpre : ∀ i ∈ pre, (ctx.linkOf i).Type_ = LtExpression →
      ∃ b, env.EvalLink (ctx.linkOf i) = Except.ok b) :
    (Done env ctx).1.err = some e ∧
    (Done env ctx).2.status = TaskStatusDone ∧
    (∀ j ∈ pre, (ctx.linkOf j).Type_ = LtNormal →
      (Done env ctx).2.linkStatus j = LinkStatusTrue) ∧
    (∀ j ∈ pre, (ctx.linkOf j).Type_ = LtExpression →
      ∀ b, env.EvalLink (ctx.linkOf j) = Except.ok b →
        (Done env ctx).2.linkStatus j = if b then LinkStatusTrue else LinkStatusFalse) ∧
    (∀ j, (ctx.linkOf j).Type_ = LtError →
      (Done env ctx).2.linkStatus j = ctx.linkStatus j) ∧
    (∀ j, (ctx.linkOf j).Type_ = LtOtherwise →
      (Done env ctx).2.linkStatus j = ctx.linkStatus j) ∧
    (∀ j, j ∉ pre → (Done env ctx).2.linkStatus j = ctx.linkStatus j) ∧
    (ctx.toLinks.Nodup → ∀ j ∈ inst :: post,
      (Done env ctx).2.linkStatus j = ctx.linkStatus j) := by
  rw [Done_at_failing_link env ctx pre post inst e hlinks hT hfail hpre]
  obtain ⟨_, _, _, _, h5⟩ := doneLoop_success env ctx.linkOf pre (doneStart ctx) rfl hpre
  have hSt : (doneLoop env pre (doneStart ctx)).2.ctx.status = TaskStatusDone :=
    doneLoop_status env pre (doneStart ctx)
  have hout : ∀ j, j ∉ pre →
      (doneLoop env pre (doneStart ctx)).2.ctx.linkStatus j = ctx.linkStatus j := by
    intro j hj
    rw [h5 j]; simp [hj, doneStart]
  refine ⟨rfl, hSt, ?_, ?_, ?_, ?_, hout, ?_⟩
  · intro j hj hTy
    show (doneLoop env pre (doneStart ctx)).2.ctx.linkStatus j = LinkStatusTrue
    rw [h5 j]
    simp [hj, Link.isNormalOrExpression, hTy, followOf, statusOfFollow]
  · intro j hj hTy b hb
    show (doneLoop env pre (doneStart ctx)).2.ctx.linkStatus j = _
    rw [h5 j]
    simp [hj, Link.isNormalOrExpression, hTy, followOf, statusOfFollow, hb]
  · intro j hTy
    show (doneLoop env pre (doneStart ctx)).2.ctx.linkStatus j = _
    rw [h5 j]
    simp [Link.isNormalOrExpression, hTy, doneStart]
  · intro j hTy
    show (doneLoop env pre (doneStart ctx)).2.ctx.linkStatus j = _
    rw [h5 j]
    simp [Link.isNormalOrExpression, hTy, doneStart]
  · intro hnd j hj
    rw [hlinks] at hnd
    exact hout j (fun hjpre => (List.nodup_append.mp hnd).2.2 hjpre hj)

/-- An example for the amended C20: `EvalLink` fails on the second of three links; the first, a
normal link that was pending, is `LinkStatusTrue`, and the link after the failing one is
still pending. -/
theorem Done_not_atomic_witness :
    (Done exLinkFailEnv (exCtx TaskStatusReady [] [40, 13, 50])).2.status = TaskStatusDone ∧
    (Done exLinkFailEnv (exCtx TaskStatusReady [] [40, 13, 50])).2.linkStatus 40 =
      LinkStatusTrue ∧
    (Done exLinkFailEnv (exCtx TaskStatusReady [] [40, 13, 50])).2.linkStatus 50 =
      LinkStatusPending :=
  have h := Done_not_atomic exLinkFailEnv (exCtx TaskStatusReady [] [40, 13, 50])
    [40] [50] 13 (GoError.otherError "bad expression") rfl (by decide) rfl
    (fun i hi hTy => by
      have h : i = 40 := by simpa using hi
      subst h
      exact absurd hTy (by decide))
  ⟨h.2.1, h.2.2.1 40 (by decide) (by decide),
    (h.2.2.2.2.2.2.2 (by decide) 50 (by decide)).trans (by decide)⟩

end Simple
